import Mathlib

/-!
Verification of the Mock Trial Timer engine (`src/App.js`).

A shallow embedding of the trial timeline / budget / navigation / editor logic
of the single-file React application `src/App.js`, together with proofs about
the claims of the specification.

Conventions of the embedding:

* JavaScript numbers that are always finite integers in the program are
  modelled as `Int` (or `Nat` for loop counters and indices).
* The sentinel `Infinity` used for unbounded segment durations is modelled by
  the two-constructor type `JNum` (`fin n` / `inf`), with the JS arithmetic
  on it (`Infinity - x = Infinity`, `min`/`max`) defined explicitly.
* Fields that may be `undefined` in JS (`side`, `witnessIndex` of segments;
  results of out-of-range array reads) are modelled with `Option`; JS `===`
  on such values corresponds to decidable equality of the `Option` type
  (`undefined === undefined` is `true`, matching `none = none`).
* React state updates performed through `setXxx(prev => ...)` are modelled by
  returning an updated state record.  Reads of a captured closure variable
  (`trialSegments` inside an event handler) see the *pre-update* list; the
  embedding reproduces this by reading from the old list where the source
  does, which matters for `goToSegmentFromSummary`.
-/

set_option autoImplicit false

namespace MockTrialApp

/-- The two sides of the proceeding (`'plaintiff'` / `'defense'` strings in the source). -/
inductive Side where
  | plaintiff
  | defense
deriving DecidableEq, Repr

/-- Segment phase kinds (the `type` strings of the source).  The source's
`'end'` is rendered `endMarker` because `end` is a Lean keyword. -/
inductive SegType where
  | opening
  | direct
  | cross
  | redirect
  | recross
  | closing
  | rebuttal
  | endMarker
deriving DecidableEq, Repr

/-- A JavaScript number that is either a finite integer or `Infinity`
(used for the `duration` field of segments and for values computed from it). -/
inductive JNum where
  | fin : Int → JNum
  | inf
deriving DecidableEq, Repr

/-- JS subtraction of a finite integer from a possibly-infinite number:
`Infinity - x === Infinity`. -/
def JNum.subFin : JNum → Int → JNum
  | .fin a, b => .fin (a - b)
  | .inf, _ => .inf

/-- JS `Math.min` on possibly-infinite numbers. -/
def JNum.minJ : JNum → JNum → JNum
  | .fin a, .fin b => .fin (min a b)
  | .fin a, .inf => .fin a
  | .inf, b => b

/-- JS `Math.max(0, ·)` on a possibly-infinite number. -/
def JNum.maxZero : JNum → JNum
  | .fin a => .fin (max 0 a)
  | .inf => .inf

/-- A non-negativity predicate on `JNum` (`Infinity` counts as non-negative;
`NaN` cannot arise in the modelled computations). -/
def JNum.nonneg : JNum → Prop
  | .fin a => 0 ≤ a
  | .inf => True

instance (j : JNum) : Decidable j.nonneg := by
  cases j <;> simp [JNum.nonneg] <;> infer_instance

/-- One trial segment, as produced by `generateAllTrialSegments`.
`side`/`witnessIndex` are `none` where the source leaves the field
`undefined` (the end marker, resp. non-witness segments); `isConditional`
is `false` where the source leaves it `undefined` (both are falsy in JS,
and `undefined === undefined` is `true`, matching `Option` equality). -/
structure Segment where
  id : Nat
  type : SegType
  side : Option Side
  witnessIndex : Option Nat
  name : String
  duration : JNum
  isConditional : Bool
  actualElapsed : Int
deriving DecidableEq, Repr

/-- The configuration record `trialConfig` (durations in seconds; the
presentation-only flag `showTotalSideTimes` is omitted). -/
structure TrialConfig where
  pOpeningDuration : Int
  dOpeningDuration : Int
  pOverallDirectDuration : Int
  dOverallCrossDuration : Int
  dOverallDirectDuration : Int
  pOverallCrossDuration : Int
  pClosingDuration : Int
  dClosingDuration : Int
  maxRebuttalDuration : Int
  plaintiffWitnessCount : Nat
  defenseWitnessCount : Nat
deriving DecidableEq, Repr

/-! ## Timeline generator (`generateAllTrialSegments`, lines 98-143)

The source pushes segments in a fixed order, assigning ids from a counter
that is incremented once per pushed segment; hence a segment's id equals its
position in the list.  The embedding writes the ids explicitly:
positions `0`/`1` are the openings, the `i`-th plaintiff-witness quadruple
occupies `2+4i .. 2+4i+3`, the `i`-th defense-witness quadruple
`2+4p+4i .. 2+4p+4i+3`, and the tail `2+4p+4d .. 2+4p+4d+3`. -/

/-- The quadruple of segments for plaintiff witness `i`
(direct / cross / redirect / recross, source lines 109-115). -/
def pWitnessQuad (i : Nat) : List Segment :=
  [ { id := 2 + 4*i, type := .direct, side := some .plaintiff, witnessIndex := some i,
      name := "P Witness " ++ toString (i+1) ++ " - Direct",
      duration := .inf, isConditional := false, actualElapsed := 0 },
    { id := 2 + 4*i + 1, type := .cross, side := some .defense, witnessIndex := some i,
      name := "P Witness " ++ toString (i+1) ++ " - Cross",
      duration := .inf, isConditional := false, actualElapsed := 0 },
    { id := 2 + 4*i + 2, type := .redirect, side := some .plaintiff, witnessIndex := some i,
      name := "P Witness " ++ toString (i+1) ++ " - Redirect",
      duration := .inf, isConditional := true, actualElapsed := 0 },
    { id := 2 + 4*i + 3, type := .recross, side := some .defense, witnessIndex := some i,
      name := "P Witness " ++ toString (i+1) ++ " - Recross",
      duration := .inf, isConditional := true, actualElapsed := 0 } ]

/-- The quadruple of segments for defense witness `i`
(`p` is the plaintiff witness count, fixing the id offset; lines 118-124). -/
def dWitnessQuad (p i : Nat) : List Segment :=
  [ { id := 2 + 4*p + 4*i, type := .direct, side := some .defense, witnessIndex := some i,
      name := "D Witness " ++ toString (i+1) ++ " - Direct",
      duration := .inf, isConditional := false, actualElapsed := 0 },
    { id := 2 + 4*p + 4*i + 1, type := .cross, side := some .plaintiff, witnessIndex := some i,
      name := "D Witness " ++ toString (i+1) ++ " - Cross",
      duration := .inf, isConditional := false, actualElapsed := 0 },
    { id := 2 + 4*p + 4*i + 2, type := .redirect, side := some .defense, witnessIndex := some i,
      name := "D Witness " ++ toString (i+1) ++ " - Redirect",
      duration := .inf, isConditional := true, actualElapsed := 0 },
    { id := 2 + 4*p + 4*i + 3, type := .recross, side := some .plaintiff, witnessIndex := some i,
      name := "D Witness " ++ toString (i+1) ++ " - Recross",
      duration := .inf, isConditional := true, actualElapsed := 0 } ]

/-- The plaintiff-witness `for` loop of the generator: quadruples for
witnesses `i, i+1, ...` while `count` witnesses remain. -/
def pWitnessSegs : Nat → Nat → List Segment
  | 0, _ => []
  | count + 1, i => pWitnessQuad i ++ pWitnessSegs count (i+1)

/-- The defense-witness `for` loop of the generator. -/
def dWitnessSegs (p : Nat) : Nat → Nat → List Segment
  | 0, _ => []
  | count + 1, i => dWitnessQuad p i ++ dWitnessSegs p count (i+1)

/-- Plaintiff opening segment (line 103). -/
def pOpeningSeg (cfg : TrialConfig) : Segment :=
  { id := 0, type := .opening, side := some .plaintiff, witnessIndex := none,
    name := "Plaintiff Opening", duration := .fin cfg.pOpeningDuration,
    isConditional := false, actualElapsed := 0 }

/-- Defense opening segment (line 106). -/
def dOpeningSeg (cfg : TrialConfig) : Segment :=
  { id := 1, type := .opening, side := some .defense, witnessIndex := none,
    name := "Defense Opening", duration := .fin cfg.dOpeningDuration,
    isConditional := false, actualElapsed := 0 }

/-- Plaintiff closing segment (line 127). -/
def pClosingSeg (cfg : TrialConfig) : Segment :=
  { id := 2 + 4*cfg.plaintiffWitnessCount + 4*cfg.defenseWitnessCount,
    type := .closing, side := some .plaintiff, witnessIndex := none,
    name := "Plaintiff Closing", duration := .fin cfg.pClosingDuration,
    isConditional := false, actualElapsed := 0 }

/-- Defense closing segment (line 130). -/
def dClosingSeg (cfg : TrialConfig) : Segment :=
  { id := 2 + 4*cfg.plaintiffWitnessCount + 4*cfg.defenseWitnessCount + 1,
    type := .closing, side := some .defense, witnessIndex := none,
    name := "Defense Closing", duration := .fin cfg.dClosingDuration,
    isConditional := false, actualElapsed := 0 }

/-- Rebuttal segment (line 133): duration `Infinity`, its effective cap is
computed dynamically by `displayRemainingTime`. -/
def rebuttalSeg (cfg : TrialConfig) : Segment :=
  { id := 2 + 4*cfg.plaintiffWitnessCount + 4*cfg.defenseWitnessCount + 2,
    type := .rebuttal, side := some .plaintiff, witnessIndex := none,
    name := "Rebuttal", duration := .inf, isConditional := false, actualElapsed := 0 }

/-- End-of-trial marker (line 136): no `side`, duration `0`, not conditional. -/
def endOfTrialSeg (cfg : TrialConfig) : Segment :=
  { id := 2 + 4*cfg.plaintiffWitnessCount + 4*cfg.defenseWitnessCount + 3,
    type := .endMarker, side := none, witnessIndex := none,
    name := "Trial Ended", duration := .fin 0, isConditional := false, actualElapsed := 0 }

/-- Embedding of `generateAllTrialSegments` (lines 98-138): the full ordered timeline. -/
def generateAllTrialSegments (cfg : TrialConfig) : List Segment :=
  [pOpeningSeg cfg, dOpeningSeg cfg]
    ++ pWitnessSegs cfg.plaintiffWitnessCount 0
    ++ dWitnessSegs cfg.plaintiffWitnessCount cfg.defenseWitnessCount 0
    ++ [pClosingSeg cfg, dClosingSeg cfg, rebuttalSeg cfg, endOfTrialSeg cfg]

/-! ## Budget accounting (`doesSegmentContributeToBudget`, budget usage) -/

/-- The four shared examination budget keys of `trialConfig`. -/
inductive BudgetKey where
  | pOverallDirectDuration
  | dOverallCrossDuration
  | dOverallDirectDuration
  | pOverallCrossDuration
deriving DecidableEq, Repr

/-- Embedding of `trialConfig[budgetKey]` (line 831). -/
def TrialConfig.budgetTotal (cfg : TrialConfig) : BudgetKey → Int
  | .pOverallDirectDuration => cfg.pOverallDirectDuration
  | .dOverallCrossDuration => cfg.dOverallCrossDuration
  | .dOverallDirectDuration => cfg.dOverallDirectDuration
  | .pOverallCrossDuration => cfg.pOverallCrossDuration

/-- Matches one list against the beginning of another (the inner loop of a
JS `String.prototype.includes` search). -/
def charsMatchHere : List Char → List Char → Bool
  | [], _ => true
  | _ :: _, [] => false
  | c :: cs, d :: ds => c == d && charsMatchHere cs ds

/-- Does the second list contain the first as a contiguous run? -/
def charsContain (needle : List Char) : List Char → Bool
  | [] => charsMatchHere needle []
  | c :: cs => charsMatchHere needle (c :: cs) || charsContain needle cs

/-- JS `hay.includes(needle)` on strings. -/
def jsIncludes (hay needle : String) : Bool :=
  charsContain needle.toList hay.toList

/-- Embedding of `doesSegmentContributeToBudget` (lines 474-485). -/
def doesSegmentContributeToBudget (segment : Segment) (budgetKey : BudgetKey) : Bool :=
  let isDirectType := segment.type == .direct || segment.type == .redirect
  let isCrossType := segment.type == .cross || segment.type == .recross
  match budgetKey with
  | .pOverallDirectDuration => isDirectType && segment.side == some .plaintiff
  | .dOverallCrossDuration =>
      isCrossType && segment.side == some .defense && jsIncludes segment.name ("P Witness")
  | .dOverallDirectDuration => isDirectType && segment.side == some .defense
  | .pOverallCrossDuration =>
      isCrossType && segment.side == some .plaintiff && jsIncludes segment.name ("D Witness")

/-- The contribution of position `i` to a budget's "used before current"
total: the segment's `actualElapsed` if it contributes to the budget and
recorded positive time, else `0` (the `forEach` body of lines 588-594). -/
def contribVal (segs : List Segment) (budgetKey : BudgetKey) (i : Nat) : Int :=
  match segs[i]? with
  | some s => if doesSegmentContributeToBudget s budgetKey && decide (s.actualElapsed > 0)
              then s.actualElapsed else 0
  | none => 0

/-- Time used by segments strictly before index `idx` that contribute to
`budgetKey` (the `...UsedBeforeCurrent` accumulators of lines 588-594,
written as a sum over the positions `< idx`). -/
def usedBeforeCurrent (segs : List Segment) (idx : Nat) (budgetKey : BudgetKey) : Int :=
  ((List.range idx).map (contribVal segs budgetKey)).sum

/-! ## Remaining-time / overtime computation (`displayRemainingTime`, lines 682-765) -/

/-- Lines 707-708: the committed `actualElapsed` of the (first) plaintiff
closing segment, `0` when there is none. -/
def pClosingActualElapsed (segs : List Segment) : Int :=
  match segs.find? (fun s => s.type == .closing && s.side == some .plaintiff) with
  | some s => s.actualElapsed
  | none => 0

/-- The record returned by the `displayRemainingTime` memo. -/
structure DisplayRemaining where
  value : Int
  typeTag : String
  budgetKey : Option BudgetKey
  usedBeforeCurrentSegment : Int
  totalBudget : Int
  overtime : Int
deriving DecidableEq, Repr

/-- Embedding of `displayRemainingTime` (lines 682-765): remaining/overtime for the
active segment, from the segment list, config, active index and live
elapsed counter.  (The source's `type` field is rendered `typeTag`.) -/
def displayRemainingTime (cfg : TrialConfig) (segs : List Segment)
    (currentSegmentIndex : Nat) (currentSegmentElapsed : Int) : DisplayRemaining :=
  match segs[currentSegmentIndex]? with
  | none =>
      { value := 0, typeTag := "N/A", budgetKey := none,
        usedBeforeCurrentSegment := 0, totalBudget := 0, overtime := 0 }
  | some currentSegment =>
    match currentSegment.duration with
    | .fin d =>
        -- fixed duration segments (opening, closing, end marker)
        let remaining := d - currentSegmentElapsed
        if remaining < 0 then
          { value := 0, typeTag := "fixed", budgetKey := none,
            usedBeforeCurrentSegment := 0, totalBudget := d, overtime := -remaining }
        else
          { value := remaining, typeTag := "fixed", budgetKey := none,
            usedBeforeCurrentSegment := 0, totalBudget := d, overtime := 0 }
    | .inf =>
      if currentSegment.type = .rebuttal then
        -- dynamic rebuttal cap (lines 706-724)
        let totalBudgetCalculated :=
          max 0 (min cfg.maxRebuttalDuration
            (cfg.pClosingDuration - pClosingActualElapsed segs))
        let remaining := totalBudgetCalculated - currentSegmentElapsed
        if remaining < 0 then
          { value := 0, typeTag := "fixed", budgetKey := none,
            usedBeforeCurrentSegment := 0, totalBudget := totalBudgetCalculated,
            overtime := -remaining }
        else
          { value := remaining, typeTag := "fixed", budgetKey := none,
            usedBeforeCurrentSegment := 0, totalBudget := totalBudgetCalculated,
            overtime := 0 }
      else
        -- budget-based examination segments (lines 726-754)
        let (totalBudgetCalculated, usedB, budgetKey) :=
          if doesSegmentContributeToBudget currentSegment .pOverallDirectDuration then
            (cfg.pOverallDirectDuration,
             usedBeforeCurrent segs currentSegmentIndex .pOverallDirectDuration,
             some BudgetKey.pOverallDirectDuration)
          else if doesSegmentContributeToBudget currentSegment .dOverallCrossDuration then
            (cfg.dOverallCrossDuration,
             usedBeforeCurrent segs currentSegmentIndex .dOverallCrossDuration,
             some BudgetKey.dOverallCrossDuration)
          else if doesSegmentContributeToBudget currentSegment .dOverallDirectDuration then
            (cfg.dOverallDirectDuration,
             usedBeforeCurrent segs currentSegmentIndex .dOverallDirectDuration,
             some BudgetKey.dOverallDirectDuration)
          else if doesSegmentContributeToBudget currentSegment .pOverallCrossDuration then
            (cfg.pOverallCrossDuration,
             usedBeforeCurrent segs currentSegmentIndex .pOverallCrossDuration,
             some BudgetKey.pOverallCrossDuration)
          else (0, 0, none)
        let remaining := totalBudgetCalculated - (usedB + currentSegmentElapsed)
        if remaining < 0 then
          { value := 0, typeTag := "budget", budgetKey := budgetKey,
            usedBeforeCurrentSegment := usedB, totalBudget := totalBudgetCalculated,
            overtime := -remaining }
        else
          { value := remaining, typeTag := "budget", budgetKey := budgetKey,
            usedBeforeCurrentSegment := usedB, totalBudget := totalBudgetCalculated,
            overtime := 0 }

/-! ## Run state -/

/-- The mutable run state of the app: the React state variables of the
component that the engine reads and writes (`trialConfig`, `trialSegments`,
`currentSegmentIndex`, `currentSegmentElapsed`, `isRunning`,
`showRedirectPrompt`, `showRecrossPrompt`).  `ticksDelivered` is pure
instrumentation: it counts how many timer ticks have fired (the interval
only runs while `isRunning`), so that tick-conservation properties can be
stated; it influences nothing. -/
structure AppState where
  trialConfig : TrialConfig
  trialSegments : List Segment
  currentSegmentIndex : Nat
  currentSegmentElapsed : Int
  isRunning : Bool
  showRedirectPrompt : Bool
  showRecrossPrompt : Bool
  ticksDelivered : Nat
deriving DecidableEq, Repr

/-- Embedding of `trialSegments[i].actualElapsed`, with the `|| 0` / out-of-range
behaviour of the source's reads (`?.actualElapsed || 0`). -/
def elapsedAt (segs : List Segment) (i : Nat) : Int :=
  match segs[i]? with
  | some s => s.actualElapsed
  | none => 0

/-- Embedding of `trialSegments[i].type`, as an `Option` (`none` when out of range). -/
def typeAt (segs : List Segment) (i : Nat) : Option SegType :=
  (segs[i]?).map Segment.type

/-- Sum of all committed `actualElapsed` values. -/
def totalElapsedSum (segs : List Segment) : Int :=
  (segs.map Segment.actualElapsed).sum

/-- Embedding of `saveCurrentSegmentTime` (lines 149-157): commit the live elapsed
counter into the active segment's `actualElapsed`, unless the active
segment is the end marker (or the index is out of range). -/
def saveCurrentSegmentTime (st : AppState) : List Segment :=
  match st.trialSegments[st.currentSegmentIndex]? with
  | some cur =>
      if cur.type ≠ SegType.endMarker then
        st.trialSegments.set st.currentSegmentIndex
          { cur with actualElapsed := st.currentSegmentElapsed }
      else st.trialSegments
  | none => st.trialSegments

/-- Embedding of `startTrial` (lines 458-465): generate the timeline and initialise the
run state (index 0, elapsed 0, paused, no prompts). -/
def startTrial (cfg : TrialConfig) : AppState :=
  { trialConfig := cfg
    trialSegments := generateAllTrialSegments cfg
    currentSegmentIndex := 0
    currentSegmentElapsed := 0
    isRunning := false
    showRedirectPrompt := false
    showRecrossPrompt := false
    ticksDelivered := 0 }

/-! ## Time editor (`handleEditTimeSave`, lines 812-896)

The edit modal's minute/second fields can only hold clamped non-negative
integers: their `onChange` handlers (lines 1641 and 1651) run every raw
input through `parseInt(...) || 0` (so `NaN` becomes `0`) and `Math.max(0, ·)`
(minutes) resp. `Math.max(0, Math.min(59, ·))` (seconds).  A raw input is
modelled as `Option Int`: `none` is a malformed string whose `parseInt` is
`NaN`. -/

/-- The minutes field after the `onChange` clamping (line 1641). -/
def modalMinutesValue (raw : Option Int) : Int :=
  max 0 (raw.getD 0)

/-- The seconds field after the `onChange` clamping (line 1651). -/
def modalSecondsValue (raw : Option Int) : Int :=
  max 0 (min 59 (raw.getD 0))

/-- Embedding of `newTimeInSecondsFromModal` (line 815). -/
def newTimeInSecondsFromModal (minutes seconds : Int) : Int :=
  minutes * 60 + seconds

/-- Case 1 of `handleEditTimeSave` (lines 817-828): overwrite the
`actualElapsed` of the segment whose id matches the edit context's segment,
and, when that id is the active segment's, overwrite the live counter too. -/
def handleEditTimeSaveSegment (st : AppState) (target : Segment) (newTime : Int) : AppState :=
  { st with
    trialSegments := st.trialSegments.map (fun seg =>
      if seg.id == target.id then { seg with actualElapsed := newTime } else seg)
    currentSegmentElapsed :=
      if (st.trialSegments[st.currentSegmentIndex]?).map Segment.id == some target.id
      then newTime else st.currentSegmentElapsed }

/-- The backward deduction loop of the budget edit (lines 851-859): walk
indices `n-1, n-2, ..., 0`, and while `excessToRemove > 0` deduct
`min(excess, actualElapsed)` from each segment that contributes to the
budget and has recorded time. -/
def deductWalk (budgetKey : BudgetKey) : Nat → Int → List Segment → List Segment
  | 0, _, segs => segs
  | i + 1, excessToRemove, segs =>
      if excessToRemove > 0 then
        match segs[i]? with
        | some segment =>
            if doesSegmentContributeToBudget segment budgetKey
                && decide (segment.actualElapsed > 0) then
              let canDeduct := min excessToRemove segment.actualElapsed
              deductWalk budgetKey i (excessToRemove - canDeduct)
                (segs.set i { segment with actualElapsed := segment.actualElapsed - canDeduct })
            else deductWalk budgetKey i excessToRemove segs
        | none => deductWalk budgetKey i excessToRemove segs
      else segs

/-- Case 2 of `handleEditTimeSave` (lines 829-869): set the *remaining*
time of a shared budget.  `usedBeforeCurrentSegment` is the value captured
in the modal context when it was opened (line 1306), i.e.
`usedBeforeCurrent` of the state at that moment. -/
def handleEditTimeSaveBudget (st : AppState) (budgetKey : BudgetKey)
    (usedBeforeCurrentSegment : Int) (newTime : Int) : AppState :=
  let totalBudget := st.trialConfig.budgetTotal budgetKey
  let desiredTotalUsed := totalBudget - newTime
  let calculatedCurrentSegmentElapsed := desiredTotalUsed - usedBeforeCurrentSegment
  if calculatedCurrentSegmentElapsed < 0 then
    let excessToRemove := -calculatedCurrentSegmentElapsed
    { st with
      trialSegments := deductWalk budgetKey st.currentSegmentIndex excessToRemove st.trialSegments
      currentSegmentElapsed := 0 }
  else
    { st with
      currentSegmentElapsed :=
        min calculatedCurrentSegmentElapsed (totalBudget - usedBeforeCurrentSegment) }

/-- The `finalElapsed` computation of case 3 of `handleEditTimeSave`
(lines 870-880): `Math.max(0, Math.min(originalDuration - newTime,
originalDuration))` where `originalDuration` is the edited segment's
`duration` field — which is `Infinity` for the rebuttal segment (the
effective cap passed in the modal context as `originalDuration`, line 1319,
is never read by the handler). -/
def fixedRemainingEditFinalElapsed (segment : Segment) (newTime : Int) : JNum :=
  let originalDuration := segment.duration
  let newCalculatedElapsed := originalDuration.subFin newTime
  (newCalculatedElapsed.minJ originalDuration).maxZero

/-- Case 3 of `handleEditTimeSave` (lines 870-893) writes
`fixedRemainingEditFinalElapsed` both to the live counter (line 882) and to
the stored `actualElapsed` of the segment with the matching id (lines
885-892).  Because that value can be `Infinity` (for the rebuttal), the
outcome is reported as the pair of `JNum` values that the source stores. -/
structure FixedEditOutcome where
  newCurrentSegmentElapsed : JNum
  newStoredElapsed : JNum
deriving DecidableEq, Repr

/-- Case 3 of `handleEditTimeSave`: both stores receive `finalElapsed`. -/
def handleEditTimeSaveFixed (segment : Segment) (newTime : Int) : FixedEditOutcome :=
  let finalElapsed := fixedRemainingEditFinalElapsed segment newTime
  { newCurrentSegmentElapsed := finalElapsed, newStoredElapsed := finalElapsed }

/-! ## Navigation state machine

Each handler below is the corresponding React callback.  The handlers read
`trialSegments` through their closure, i.e. the *pre-commit* list; all of
the reads of other indices than the committed one are unaffected, and the
embedding reads from the old list exactly where the source does. -/

/-- Embedding of `handleTimerTick` (lines 88-90): the interval is only scheduled while
`isRunning` (lines 249-257), so a tick is delivered (and counted) exactly
when the run flag is set. -/
def handleTimerTick (st : AppState) : AppState :=
  if st.isRunning then
    { st with currentSegmentElapsed := st.currentSegmentElapsed + 1
              ticksDelivered := st.ticksDelivered + 1 }
  else st

/-- The `currentSegment.type === 'end'` test of line 325. -/
def currentIsEnd (segs : List Segment) (i : Nat) : Bool :=
  match segs[i]? with
  | some cur => cur.type == .endMarker
  | none => false

/-- Embedding of `toggleTimer` (lines 324-329): no-op while a prompt is pending or the
active segment is the end marker. -/
def toggleTimer (st : AppState) : AppState :=
  if st.showRedirectPrompt || st.showRecrossPrompt
      || currentIsEnd st.trialSegments st.currentSegmentIndex then st
  else { st with isRunning := !st.isRunning }

/-- The conditional-skip loop of `moveToNextSegment` (lines 195-203):
starting at `nextIndex`, skip forward over conditional segments with
`actualElapsed == 0` that match the leaving segment's witness and side.
The loop strictly increases the index and stops at the list length at the
latest, so `segs.length` steps of fuel always suffice. -/
def advanceSkipLoop (segs : List Segment) (curWitness : Option Nat) (curSide : Option Side) :
    Nat → Nat → Nat
  | 0, nextIndex => nextIndex
  | fuel + 1, nextIndex =>
      match segs[nextIndex]? with
      | some s =>
          if s.isConditional && decide (s.actualElapsed = 0) then
            if s.witnessIndex == curWitness && s.side == curSide then
              advanceSkipLoop segs curWitness curSide fuel (nextIndex + 1)
            else nextIndex
          else nextIndex
      | none => nextIndex

/-- The redirect-prompt condition of lines 170-177: the active segment is a
cross whose immediate successor is a redirect for the same witness. -/
def redirectPromptCond (segs : List Segment) (i : Nat) : Bool :=
  match segs[i]?, segs[i + 1]? with
  | some cur, some nxt =>
      cur.type == .cross && nxt.type == .redirect && nxt.witnessIndex == cur.witnessIndex
  | _, _ => false

/-- The recross-prompt condition of lines 179-186. -/
def recrossPromptCond (segs : List Segment) (i : Nat) : Bool :=
  match segs[i]?, segs[i + 1]? with
  | some cur, some nxt =>
      cur.type == .redirect && nxt.type == .recross && nxt.witnessIndex == cur.witnessIndex
  | _, _ => false

/-- Embedding of `moveToNextSegment` (lines 164-213): pause, commit, possibly raise a
redirect/recross prompt instead of moving, else skip forward and land. -/
def moveToNextSegment (st : AppState) : AppState :=
  let segs := st.trialSegments
  let committed := saveCurrentSegmentTime st
  if redirectPromptCond segs st.currentSegmentIndex then
    { st with isRunning := false, trialSegments := committed, showRedirectPrompt := true }
  else if recrossPromptCond segs st.currentSegmentIndex then
    { st with isRunning := false, trialSegments := committed, showRecrossPrompt := true }
  else
    let curWitness := (segs[st.currentSegmentIndex]?).bind Segment.witnessIndex
    let curSide := (segs[st.currentSegmentIndex]?).bind Segment.side
    let nextIndex :=
      advanceSkipLoop segs curWitness curSide segs.length (st.currentSegmentIndex + 1)
    if nextIndex < segs.length then
      { st with isRunning := false, trialSegments := committed,
                currentSegmentIndex := nextIndex,
                currentSegmentElapsed := elapsedAt segs nextIndex }
    else
      { st with isRunning := false, trialSegments := committed,
                currentSegmentIndex := segs.length - 1,
                currentSegmentElapsed := 0 }

/-- The backward skip loop of `moveToPreviousSegment` (lines 229-232).
The source's guard is `prevIndex >= 0`; position 0 of every generated
timeline is a non-conditional opening, so the loop can never actually move
past 0 — the embedding clamps there. -/
def retreatSkipLoop (segs : List Segment) (curWitness : Option Nat) (curSide : Option Side) :
    Nat → Nat
  | 0 => 0
  | q + 1 =>
      match segs[q + 1]? with
      | some s =>
          if s.isConditional && decide (s.actualElapsed = 0)
              && s.witnessIndex == curWitness && s.side == curSide then
            retreatSkipLoop segs curWitness curSide q
          else q + 1
      | none => q + 1

/-- Embedding of `moveToPreviousSegment` (lines 219-243): pause, commit, move back one
index skipping matching zero-elapsed conditionals; at index 0 just zero the
live counter. -/
def moveToPreviousSegment (st : AppState) : AppState :=
  let segs := st.trialSegments
  let committed := saveCurrentSegmentTime st
  if st.currentSegmentIndex > 0 then
    let curWitness := (segs[st.currentSegmentIndex]?).bind Segment.witnessIndex
    let curSide := (segs[st.currentSegmentIndex]?).bind Segment.side
    let prevIndex := retreatSkipLoop segs curWitness curSide (st.currentSegmentIndex - 1)
    { st with isRunning := false, trialSegments := committed,
              currentSegmentIndex := prevIndex,
              currentSegmentElapsed := elapsedAt segs prevIndex }
  else
    { st with isRunning := false, trialSegments := committed, currentSegmentElapsed := 0 }

/-- The marking loop of the redirect "No" branch (lines 503-514): from
`tempIndex` onward, zero the `actualElapsed` of consecutive redirect/recross
segments matching the originating segment's witness and side.  As with
`advanceSkipLoop`, `segs.length` fuel suffices. -/
def markSkipLoopRedirect (cur : Segment) : Nat → Nat → List Segment → List Segment × Nat
  | 0, tempIndex, segs => (segs, tempIndex)
  | fuel + 1, tempIndex, segs =>
      match segs[tempIndex]? with
      | some s =>
          if (s.type == .redirect || s.type == .recross)
              && s.witnessIndex == cur.witnessIndex && s.side == cur.side then
            markSkipLoopRedirect cur fuel (tempIndex + 1)
              (segs.set tempIndex { s with actualElapsed := 0 })
          else (segs, tempIndex)
      | none => (segs, tempIndex)

/-- Embedding of `handleRedirectDecisionPrompt` (lines 493-522).  The prompt modal is the
only place this handler is reachable from, so it is gated on
`showRedirectPrompt`.  The final `setCurrentSegmentElapsed` (line 520) reads
the closure's pre-update `trialSegments`. -/
def handleRedirectDecisionPrompt (st : AppState) (proceedWithRedirect : Bool) : AppState :=
  if st.showRedirectPrompt then
    let segs := st.trialSegments
    if proceedWithRedirect then
      { st with showRedirectPrompt := false, isRunning := false,
                currentSegmentIndex := st.currentSegmentIndex + 1,
                currentSegmentElapsed := elapsedAt segs (st.currentSegmentIndex + 1) }
    else
      match segs[st.currentSegmentIndex]? with
      | some cur =>
          let res := markSkipLoopRedirect cur segs.length (st.currentSegmentIndex + 3) segs
          { st with showRedirectPrompt := false, isRunning := false,
                    trialSegments := res.1,
                    currentSegmentIndex := res.2,
                    currentSegmentElapsed := elapsedAt segs res.2 }
      | none =>
          -- the source would dereference `currentSegment` here; a pending
          -- prompt always has a valid originating cross segment
          { st with showRedirectPrompt := false, isRunning := false }
  else st

/-- The marking loop of the recross "No" branch (lines 540-551): identical
shape, but only `recross` segments match. -/
def markSkipLoopRecross (cur : Segment) : Nat → Nat → List Segment → List Segment × Nat
  | 0, tempIndex, segs => (segs, tempIndex)
  | fuel + 1, tempIndex, segs =>
      match segs[tempIndex]? with
      | some s =>
          if s.type == .recross
              && s.witnessIndex == cur.witnessIndex && s.side == cur.side then
            markSkipLoopRecross cur fuel (tempIndex + 1)
              (segs.set tempIndex { s with actualElapsed := 0 })
          else (segs, tempIndex)
      | none => (segs, tempIndex)

/-- Embedding of `handleRecrossDecisionPrompt` (lines 530-559), gated on
`showRecrossPrompt` (the prompt modal). -/
def handleRecrossDecisionPrompt (st : AppState) (proceedWithRecross : Bool) : AppState :=
  if st.showRecrossPrompt then
    let segs := st.trialSegments
    if proceedWithRecross then
      { st with showRecrossPrompt := false, isRunning := false,
                currentSegmentIndex := st.currentSegmentIndex + 1,
                currentSegmentElapsed := elapsedAt segs (st.currentSegmentIndex + 1) }
    else
      match segs[st.currentSegmentIndex]? with
      | some cur =>
          let res := markSkipLoopRecross cur segs.length (st.currentSegmentIndex + 1) segs
          { st with showRecrossPrompt := false, isRunning := false,
                    trialSegments := res.1,
                    currentSegmentIndex := res.2,
                    currentSegmentElapsed := elapsedAt segs res.2 }
      | none =>
          { st with showRecrossPrompt := false, isRunning := false }
  else st

/-- Embedding of `goToSegmentFromSummary` (lines 936-949): pause; when the id is found,
commit the active segment, set the index to the target and load the
target's elapsed — reading the closure's *pre-commit* `trialSegments`
(line 947).  The summary is unreachable while a prompt modal is open. -/
def goToSegmentFromSummary (st : AppState) (segmentId : Nat) : AppState :=
  if st.showRedirectPrompt || st.showRecrossPrompt then st
  else
    match st.trialSegments.findIdx? (fun seg => seg.id == segmentId) with
    | some segmentIndex =>
        { st with isRunning := false,
                  trialSegments := saveCurrentSegmentTime st,
                  currentSegmentIndex := segmentIndex,
                  currentSegmentElapsed := elapsedAt st.trialSegments segmentIndex }
    | none => { st with isRunning := false }

/-! ## Event alphabet and traces -/

/-- The engine events a user session can deliver (edits excluded). -/
inductive Op where
  | tick
  | toggle
  | advance
  | retreat
  | decideRedirect (b : Bool)
  | decideRecross (b : Bool)
  | goTo (segmentId : Nat)
deriving DecidableEq, Repr

/-- One step of the machine.  `advance` and `retreat` are gated on pending
prompts: the control buttons are not rendered while a prompt modal is open
(line 1335 of the source). -/
def step (st : AppState) : Op → AppState
  | .tick => handleTimerTick st
  | .toggle => toggleTimer st
  | .advance =>
      if st.showRedirectPrompt || st.showRecrossPrompt then st else moveToNextSegment st
  | .retreat =>
      if st.showRedirectPrompt || st.showRecrossPrompt then st else moveToPreviousSegment st
  | .decideRedirect b => handleRedirectDecisionPrompt st b
  | .decideRecross b => handleRecrossDecisionPrompt st b
  | .goTo segmentId => goToSegmentFromSummary st segmentId

/-- Run a trace of events. -/
def runTrace (st : AppState) (ops : List Op) : AppState :=
  ops.foldl step st

/-- Returns `true` when the trace never applies `retreat` in a state whose active
index is 0 (evaluated along the run). -/
def noRetreatAtZero : AppState → List Op → Bool
  | _, [] => true
  | st, op :: rest =>
      (op != Op.retreat || st.currentSegmentIndex != 0)
        && noRetreatAtZero (step st op) rest

/-- Returns `true` when the trace contains no jump events. -/
def noJumpOps : List Op → Bool
  | [] => true
  | op :: rest =>
      (match op with | Op.goTo _ => false | _ => true) && noJumpOps rest

/-! ## Structure of the generated timeline: the end marker -/

/-- The generated timeline without its final end marker. -/
def generateFront (cfg : TrialConfig) : List Segment :=
  [pOpeningSeg cfg, dOpeningSeg cfg]
    ++ pWitnessSegs cfg.plaintiffWitnessCount 0
    ++ dWitnessSegs cfg.plaintiffWitnessCount cfg.defenseWitnessCount 0
    ++ [pClosingSeg cfg, dClosingSeg cfg, rebuttalSeg cfg]

/-! ## Concrete demonstration data -/

/-- A concrete configuration: one witness per side, plaintiff closing
420 s, rebuttal cap 180 s (the spec's own worked example). -/
def cfgDemo : TrialConfig :=
  { pOpeningDuration := 300, dOpeningDuration := 300,
    pOverallDirectDuration := 1500, dOverallCrossDuration := 1080,
    dOverallDirectDuration := 1500, pOverallCrossDuration := 1080,
    pClosingDuration := 420, dClosingDuration := 420,
    maxRebuttalDuration := 180,
    plaintiffWitnessCount := 1, defenseWitnessCount := 1 }

/-- The `cfgDemo` timeline after the plaintiff closing (id 10) recorded
300 s of committed elapsed time; index 12 is the rebuttal. -/
def segsDemoRebuttal : List Segment :=
  (generateAllTrialSegments cfgDemo).map
    (fun s => if s.id == 10 then { s with actualElapsed := 300 } else s)

/-! ## Concrete traces for the navigation claims -/

/-- Reach the first cross (index 3), take the redirect and record 2 s on
it, retreat to the cross again, and advance — the redirect prompt is
pending again with 2 s recorded on the redirect (index 4). -/
def traceC6pre : List Op :=
  [.advance, .advance, .advance, .advance, .decideRedirect true, .toggle, .tick, .tick,
   .advance, .decideRecross true, .retreat, .retreat, .advance]

/-- Extends `traceC6pre` followed by answering "No" to the redirect prompt. -/
def traceC6 : List Op := traceC6pre ++ [.decideRedirect false]

/-- Reach the redirect (index 4) and advance — the recross prompt is
pending. -/
def traceC7pre : List Op :=
  [.advance, .advance, .advance, .advance, .decideRedirect true, .advance]

/-- Extends `traceC7pre` followed by answering "No" to the recross prompt. -/
def traceC7 : List Op := traceC7pre ++ [.decideRecross false]

/-- Record 2 s on the opening, advance, retreat back (stored 2 s reloaded),
tick once more (live 3) and jump to the opening's own id. -/
def traceC10 : List Op :=
  [.toggle, .tick, .tick, .advance, .retreat, .toggle, .tick, .goTo 0]

/-- Two ticks, retreat at index 0 (commit + zero), one more tick, advance:
the last commit overwrites the stored 2 s, losing them. -/
def traceC8cx : List Op :=
  [.toggle, .tick, .tick, .retreat, .toggle, .tick, .advance]

/-! ## Machinery for the tick-conservation invariant (C8) -/

/-- A segment with its mutable `actualElapsed` forgotten: navigation only
ever rewrites `actualElapsed`, so this "skeleton" is constant along a run. -/
def stripElapsed (s : Segment) : Segment := { s with actualElapsed := 0 }

/-- The committed elapsed of all segments other than the active one. -/
def committedElapsedOffActive (st : AppState) : Int :=
  totalElapsedSum st.trialSegments - elapsedAt st.trialSegments st.currentSegmentIndex

/-! ### Local shape of the generated timeline

Two positional facts drive the decision handlers: three positions after any
cross there is never a redirect or recross (so the redirect "No" marking
loop exits immediately), and the segment after any redirect is a recross of
the *opposite* side (so the recross "No" marking loop exits immediately). -/

/-- The two positional facts, for every position of a list. -/
def LocalShape (l : List Segment) : Prop :=
  ∀ i : Nat,
    (∀ s, l[i]? = some s → s.type = SegType.cross →
      i + 3 < l.length
        ∧ ∀ t, l[i+3]? = some t →
            t.type ≠ SegType.redirect ∧ t.type ≠ SegType.recross)
    ∧ (∀ s, l[i]? = some s → s.type = SegType.redirect →
      ∃ t, l[i+1]? = some t ∧ t.type = SegType.recross
        ∧ t.witnessIndex = s.witnessIndex ∧ t.side ≠ s.side)

/-- Non-empty with a head that is neither redirect nor recross (what a
prepended quadruple's cross may look ahead into). -/
def HeadSafe (l : List Segment) : Prop :=
  0 < l.length
    ∧ ∀ t, l[0]? = some t → t.type ≠ SegType.redirect ∧ t.type ≠ SegType.recross

/-! ### The run invariant -/

/-- The strengthened run invariant for traces without edits and jumps.
`conservation` is the tick-conservation property itself; the other clauses
are what makes it inductive. -/
structure Inv (cfg : TrialConfig) (st : AppState) : Prop where
  skeleton : st.trialSegments.map stripElapsed
      = (generateAllTrialSegments cfg).map stripElapsed
  idxLt : st.currentSegmentIndex < st.trialSegments.length
  conservation : totalElapsedSum st.trialSegments
      - elapsedAt st.trialSegments st.currentSegmentIndex
      + st.currentSegmentElapsed = (st.ticksDelivered : Int)
  prompt_pause : st.showRedirectPrompt = true ∨ st.showRecrossPrompt = true →
      st.isRunning = false
        ∧ elapsedAt st.trialSegments st.currentSegmentIndex = st.currentSegmentElapsed
  mutex : ¬(st.showRedirectPrompt = true ∧ st.showRecrossPrompt = true)
  redirect_shape : st.showRedirectPrompt = true →
      typeAt st.trialSegments st.currentSegmentIndex = some SegType.cross
  recross_shape : st.showRecrossPrompt = true →
      typeAt st.trialSegments st.currentSegmentIndex = some SegType.redirect
  end_zero : ∀ i, typeAt st.trialSegments i = some SegType.endMarker →
      elapsedAt st.trialSegments i = 0
  at_end : typeAt st.trialSegments st.currentSegmentIndex = some SegType.endMarker →
      st.currentSegmentElapsed = 0 ∧ st.isRunning = false

/-! ## Theorems -/

/-! ### Basic structural lemmas about the generated timeline -/

theorem pWitnessSegs_length (count i : Nat) :
    (pWitnessSegs count i).length = 4 * count := by
  induction count generalizing i with
  | zero => rfl
  | succ c ih =>
    simp [pWitnessSegs, pWitnessQuad, ih]
    omega

theorem dWitnessSegs_length (p count i : Nat) :
    (dWitnessSegs p count i).length = 4 * count := by
  induction count generalizing i with
  | zero => rfl
  | succ c ih =>
    simp [dWitnessSegs, dWitnessQuad, ih]
    omega

theorem generateAllTrialSegments_length (cfg : TrialConfig) :
    (generateAllTrialSegments cfg).length
      = 2 + 4 * cfg.plaintiffWitnessCount + 4 * cfg.defenseWitnessCount + 2 + 1 + 1 := by
  simp [generateAllTrialSegments, pWitnessSegs_length, dWitnessSegs_length]
  omega

theorem mem_pWitnessSegs {s : Segment} {count i : Nat}
    (h : s ∈ pWitnessSegs count i) : ∃ j, s ∈ pWitnessQuad j := by
  induction count generalizing i with
  | zero => simp [pWitnessSegs] at h
  | succ c ih =>
    simp only [pWitnessSegs, List.mem_append] at h
    rcases h with h | h
    · exact ⟨i, h⟩
    · exact ih h

theorem mem_dWitnessSegs {s : Segment} {p count i : Nat}
    (h : s ∈ dWitnessSegs p count i) : ∃ j, s ∈ dWitnessQuad p j := by
  induction count generalizing i with
  | zero => simp [dWitnessSegs] at h
  | succ c ih =>
    simp only [dWitnessSegs, List.mem_append] at h
    rcases h with h | h
    · exact ⟨i, h⟩
    · exact ih h

/-- Every generated segment starts with `actualElapsed = 0`. -/
theorem generate_elapsed_zero {cfg : TrialConfig} {s : Segment}
    (h : s ∈ generateAllTrialSegments cfg) : s.actualElapsed = 0 := by
  simp only [generateAllTrialSegments, List.mem_append, List.mem_cons,
    List.not_mem_nil, or_false] at h
  rcases h with (((h | h) | h) | h) | h | h | h | h
  · subst h; rfl
  · subst h; rfl
  · obtain ⟨j, hj⟩ := mem_pWitnessSegs h
    simp [pWitnessQuad] at hj
    rcases hj with h | h | h | h <;> (subst h; rfl)
  · obtain ⟨j, hj⟩ := mem_dWitnessSegs h
    simp [dWitnessQuad] at hj
    rcases hj with h | h | h | h <;> (subst h; rfl)
  · subst h; rfl
  · subst h; rfl
  · subst h; rfl
  · subst h; rfl

/-- The conditional flag is set exactly on redirect and recross segments. -/
theorem generate_conditional_iff {cfg : TrialConfig} {s : Segment}
    (h : s ∈ generateAllTrialSegments cfg) :
    s.isConditional = true ↔ (s.type = .redirect ∨ s.type = .recross) := by
  simp only [generateAllTrialSegments, List.mem_append, List.mem_cons,
    List.not_mem_nil, or_false] at h
  rcases h with (((h | h) | h) | h) | h | h | h | h
  · subst h; simp [pOpeningSeg]
  · subst h; simp [dOpeningSeg]
  · obtain ⟨j, hj⟩ := mem_pWitnessSegs h
    simp [pWitnessQuad] at hj
    rcases hj with h | h | h | h <;> (subst h; simp)
  · obtain ⟨j, hj⟩ := mem_dWitnessSegs h
    simp [dWitnessQuad] at hj
    rcases hj with h | h | h | h <;> (subst h; simp)
  · subst h; simp [pClosingSeg]
  · subst h; simp [dClosingSeg]
  · subst h; simp [rebuttalSeg]
  · subst h; simp [endOfTrialSeg]

theorem generate_eq_front_append (cfg : TrialConfig) :
    generateAllTrialSegments cfg = generateFront cfg ++ [endOfTrialSeg cfg] := by
  simp [generateAllTrialSegments, generateFront]

theorem mem_generateFront_not_end {cfg : TrialConfig} {s : Segment}
    (h : s ∈ generateFront cfg) : s.type ≠ .endMarker := by
  simp only [generateFront, List.mem_append, List.mem_cons, List.not_mem_nil,
    or_false] at h
  rcases h with (((h | h) | h) | h) | h | h | h
  · subst h; simp [pOpeningSeg]
  · subst h; simp [dOpeningSeg]
  · obtain ⟨j, hj⟩ := mem_pWitnessSegs h
    simp [pWitnessQuad] at hj
    rcases hj with h | h | h | h <;> (subst h; simp)
  · obtain ⟨j, hj⟩ := mem_dWitnessSegs h
    simp [dWitnessQuad] at hj
    rcases hj with h | h | h | h <;> (subst h; simp)
  · subst h; simp [pClosingSeg]
  · subst h; simp [dClosingSeg]
  · subst h; simp [rebuttalSeg]

theorem generateFront_length (cfg : TrialConfig) :
    (generateFront cfg).length
      = 2 + 4 * cfg.plaintiffWitnessCount + 4 * cfg.defenseWitnessCount + 3 := by
  simp [generateFront, pWitnessSegs_length, dWitnessSegs_length]
  omega

theorem generate_countP_end (cfg : TrialConfig) :
    (generateAllTrialSegments cfg).countP (fun s => s.type == SegType.endMarker) = 1 := by
  rw [generate_eq_front_append, List.countP_append]
  have h0 : (generateFront cfg).countP (fun s => s.type == SegType.endMarker) = 0 := by
    rw [List.countP_eq_zero]
    intro s hs
    simpa using mem_generateFront_not_end hs
  simp [h0, List.countP_cons, endOfTrialSeg]

theorem generate_getLast (cfg : TrialConfig) :
    (generateAllTrialSegments cfg).getLast? = some (endOfTrialSeg cfg) := by
  rw [generate_eq_front_append, List.getLast?_append_of_ne_nil _ (by simp)]
  rfl

/-- The end marker sits exactly at the last position. -/
theorem generate_typeAt_end_iff (cfg : TrialConfig) (i : Nat) :
    typeAt (generateAllTrialSegments cfg) i = some SegType.endMarker
      ↔ i = (generateAllTrialSegments cfg).length - 1 := by
  have hlen : (generateAllTrialSegments cfg).length = (generateFront cfg).length + 1 := by
    rw [generate_eq_front_append]; simp
  constructor
  · intro h
    simp only [typeAt, Option.map_eq_some'] at h
    obtain ⟨s, hs, hstype⟩ := h
    rw [generate_eq_front_append, List.getElem?_append] at hs
    split at hs
    · exact absurd hstype (mem_generateFront_not_end (List.getElem?_mem hs))
    · rename_i hge
      push_neg at hge
      have : i - (generateFront cfg).length = 0 := by
        by_contra hne
        rw [List.getElem?_eq_none (by simp; omega)] at hs
        exact Option.noConfusion hs
      omega
  · intro h
    subst h
    rw [hlen]
    simp only [typeAt, generate_eq_front_append]
    rw [List.getElem?_append_right (by omega)]
    simp [endOfTrialSeg]

/-- C1: for every configuration the generator produces exactly
`2 + 4p + 4d + 2 + 1 + 1` segments; there is exactly one end segment, it is
the last element of the list, its duration is `0` and it is not
conditional. -/
theorem c1_generate_count_and_end_marker (cfg : TrialConfig) :
    (generateAllTrialSegments cfg).length
        = 2 + 4 * cfg.plaintiffWitnessCount + 4 * cfg.defenseWitnessCount + 2 + 1 + 1
      ∧ (generateAllTrialSegments cfg).countP (fun s => s.type == SegType.endMarker) = 1
      ∧ (generateAllTrialSegments cfg).getLast? = some (endOfTrialSeg cfg)
      ∧ (endOfTrialSeg cfg).type = SegType.endMarker
      ∧ (endOfTrialSeg cfg).duration = JNum.fin 0
      ∧ (endOfTrialSeg cfg).isConditional = false :=
  ⟨generateAllTrialSegments_length cfg, generate_countP_end cfg, generate_getLast cfg,
    rfl, rfl, rfl⟩

/-! ## Lemmas about budget usage and the deduction walk -/

theorem contribVal_nonneg (segs : List Segment) (key : BudgetKey) (i : Nat) :
    0 ≤ contribVal segs key i := by
  unfold contribVal
  cases segs[i]? with
  | none => simp
  | some s =>
    dsimp only
    split
    · rename_i h
      simp only [Bool.and_eq_true, decide_eq_true_eq] at h
      omega
    · exact le_refl 0

theorem usedBeforeCurrent_nonneg (segs : List Segment) (idx : Nat) (key : BudgetKey) :
    0 ≤ usedBeforeCurrent segs idx key := by
  refine List.sum_nonneg ?_
  intro x hx
  simp only [List.mem_map] at hx
  obtain ⟨i, _, rfl⟩ := hx
  exact contribVal_nonneg segs key i

theorem usedBeforeCurrent_succ (segs : List Segment) (n : Nat) (key : BudgetKey) :
    usedBeforeCurrent segs (n+1) key
      = usedBeforeCurrent segs n key + contribVal segs key n := by
  unfold usedBeforeCurrent
  rw [List.range_succ]
  simp

theorem contribVal_set_ne (segs : List Segment) (key : BudgetKey) {i j : Nat}
    (h : j ≠ i) (v : Segment) :
    contribVal (segs.set j v) key i = contribVal segs key i := by
  unfold contribVal
  rw [List.getElem?_set_ne h]

theorem usedBeforeCurrent_set_of_ge (segs : List Segment) (key : BudgetKey)
    {n j : Nat} (h : n ≤ j) (v : Segment) :
    usedBeforeCurrent (segs.set j v) n key = usedBeforeCurrent segs n key := by
  unfold usedBeforeCurrent
  congr 1
  refine List.map_congr_left ?_
  intro i hi
  rw [List.mem_range] at hi
  exact contribVal_set_ne segs key (by omega) v

theorem contributes_set_elapsed (s : Segment) (v : Int) (key : BudgetKey) :
    doesSegmentContributeToBudget { s with actualElapsed := v } key
      = doesSegmentContributeToBudget s key := by
  cases key <;> rfl

/-- The deduction walk of the shared-budget edit: when `excess` does not
exceed the contributed usage before index `n`, the walk absorbs all of it
(reducing the contributed usage by exactly `excess`) and leaves positions
`≥ n` untouched. -/
theorem deductWalk_spec (key : BudgetKey) :
    ∀ (n : Nat) (excess : Int) (segs : List Segment),
      0 ≤ excess → excess ≤ usedBeforeCurrent segs n key →
      usedBeforeCurrent (deductWalk key n excess segs) n key
          = usedBeforeCurrent segs n key - excess
        ∧ ∀ j, n ≤ j → (deductWalk key n excess segs)[j]? = segs[j]? := by
  intro n
  induction n with
  | zero =>
    intro excess segs h0 h1
    have hub : usedBeforeCurrent segs 0 key = 0 := by simp [usedBeforeCurrent]
    have hz : excess = 0 := by omega
    subst hz
    exact ⟨by simp [deductWalk], fun j _ => by simp [deductWalk]⟩
  | succ n ih =>
    intro excess segs h0 h1
    have hunfold : deductWalk key (n+1) excess segs
        = if excess > 0 then
            match segs[n]? with
            | some segment =>
                if doesSegmentContributeToBudget segment key
                    && decide (segment.actualElapsed > 0) then
                  deductWalk key n (excess - min excess segment.actualElapsed)
                    (segs.set n { segment with
                      actualElapsed := segment.actualElapsed - min excess segment.actualElapsed })
                else deductWalk key n excess segs
            | none => deductWalk key n excess segs
          else segs := rfl
    by_cases hpos : excess > 0
    case neg =>
      have hz : excess = 0 := by omega
      subst hz
      rw [hunfold, if_neg hpos]
      exact ⟨by omega, fun j _ => rfl⟩
    case pos =>
      rw [usedBeforeCurrent_succ] at h1
      cases hn : segs[n]? with
      | none =>
        have hcv : contribVal segs key n = 0 := by unfold contribVal; rw [hn]
        have hstep : deductWalk key (n+1) excess segs = deductWalk key n excess segs := by
          rw [hunfold, if_pos hpos, hn]
        obtain ⟨ihub, ihj⟩ := ih excess segs h0 (by omega)
        rw [hstep]
        constructor
        · rw [usedBeforeCurrent_succ, usedBeforeCurrent_succ]
          have hcv2 : contribVal (deductWalk key n excess segs) key n = 0 := by
            unfold contribVal
            rw [ihj n le_rfl, hn]
          omega
        · intro j hj
          exact ihj j (by omega)
      | some seg =>
        by_cases hc :
            (doesSegmentContributeToBudget seg key && decide (seg.actualElapsed > 0)) = true
        case neg =>
          have hcv : contribVal segs key n = 0 := by
            unfold contribVal
            rw [hn]
            dsimp only
            rw [if_neg hc]
          have hstep : deductWalk key (n+1) excess segs = deductWalk key n excess segs := by
            rw [hunfold, if_pos hpos, hn]
            dsimp only
            rw [if_neg hc]
          obtain ⟨ihub, ihj⟩ := ih excess segs h0 (by omega)
          rw [hstep]
          constructor
          · rw [usedBeforeCurrent_succ, usedBeforeCurrent_succ]
            have hcv2 : contribVal (deductWalk key n excess segs) key n = 0 := by
              unfold contribVal
              rw [ihj n le_rfl, hn]
              dsimp only
              rw [if_neg hc]
            omega
          · intro j hj
            exact ihj j (by omega)
        case pos =>
          have hcb : doesSegmentContributeToBudget seg key = true := by
            simpa using (Bool.and_eq_true _ _).mp hc |>.1
          have hse : 0 < seg.actualElapsed := by
            have := (Bool.and_eq_true _ _).mp hc |>.2
            simpa using this
          have hcv : contribVal segs key n = seg.actualElapsed := by
            unfold contribVal
            rw [hn]
            dsimp only
            rw [if_pos hc]
          set d := min excess seg.actualElapsed with hd
          have hd0 : 0 ≤ d := by positivity
          have hdle : d ≤ excess := min_le_left _ _
          have hdse : d ≤ seg.actualElapsed := min_le_right _ _
          have hlen : n < segs.length := by
            by_contra hge
            rw [List.getElem?_eq_none (by omega)] at hn
            exact Option.noConfusion hn
          set segs1 := segs.set n { seg with actualElapsed := seg.actualElapsed - d } with hsegs1
          have hstep : deductWalk key (n+1) excess segs = deductWalk key n (excess - d) segs1 := by
            rw [hunfold, if_pos hpos, hn]
            dsimp only
            rw [if_pos hc]
          have hub1 : usedBeforeCurrent segs1 n key = usedBeforeCurrent segs n key :=
            usedBeforeCurrent_set_of_ge segs key le_rfl _
          have hexc1 : excess - d ≤ usedBeforeCurrent segs1 n key := by
            rw [hub1]
            have hnn := usedBeforeCurrent_nonneg segs n key
            rcases le_total excess seg.actualElapsed with hle | hle
            · have : d = excess := by rw [hd]; exact min_eq_left hle
              omega
            · have : d = seg.actualElapsed := by rw [hd]; exact min_eq_right hle
              omega
          obtain ⟨ihub, ihj⟩ := ih (excess - d) segs1 (by omega) hexc1
          have hat : (deductWalk key n (excess - d) segs1)[n]?
              = some { seg with actualElapsed := seg.actualElapsed - d } := by
            rw [ihj n le_rfl, hsegs1, List.getElem?_set_self hlen]
          rw [hstep]
          constructor
          · rw [usedBeforeCurrent_succ, usedBeforeCurrent_succ]
            have hcv' : contribVal (deductWalk key n (excess - d) segs1) key n
                = seg.actualElapsed - d := by
              unfold contribVal
              rw [hat]
              dsimp only
              rw [contributes_set_elapsed, hcb]
              by_cases hzero : seg.actualElapsed - d > 0
              · rw [if_pos (by simp [hzero])]
              · have : seg.actualElapsed - d = 0 := by omega
                rw [this]
                simp
            rw [ihub, hub1, hcv', hcv]
            omega
          · intro j hj
            rw [ihj j (by omega), hsegs1, List.getElem?_set_ne (by omega)]

/-- The deduction walk never drives a stored value negative. -/
theorem deductWalk_nonneg (key : BudgetKey) :
    ∀ (n : Nat) (excess : Int) (segs : List Segment),
      (∀ s ∈ segs, 0 ≤ s.actualElapsed) →
      ∀ s ∈ deductWalk key n excess segs, 0 ≤ s.actualElapsed := by
  intro n
  induction n with
  | zero => intro excess segs h s hs; exact h s hs
  | succ n ih =>
    intro excess segs h s hs
    by_cases hpos : excess > 0
    case neg =>
      rw [deductWalk, if_neg hpos] at hs
      exact h s hs
    case pos =>
      rw [deductWalk, if_pos hpos] at hs
      cases hn : segs[n]? with
      | none =>
        rw [hn] at hs
        exact ih excess segs h s hs
      | some seg =>
        rw [hn] at hs
        dsimp only at hs
        split at hs
        · rename_i hc
          refine ih _ _ ?_ s hs
          intro t ht
          rcases List.mem_or_eq_of_mem_set ht with ht | rfl
          · exact h t ht
          · have hse : 0 < seg.actualElapsed := by
              have := (Bool.and_eq_true _ _).mp hc |>.2
              simpa using this
            have : min excess seg.actualElapsed ≤ seg.actualElapsed := min_le_right _ _
            dsimp only
            omega
        · exact ih excess segs h s hs

/-! ## C3: dynamic rebuttal allotment -/

/-- C3: whenever the active segment is the rebuttal (an `Infinity`-duration
segment of type `rebuttal`, as the generator produces it), the allotment
(`totalBudget`) used by the remaining/overtime computation equals
`max 0 (min maxRebuttalDuration (pClosingDuration - plaintiff closing's
actualElapsed))`, and remaining/overtime are computed from exactly that
allotment. -/
theorem c3_rebuttal_allotment (cfg : TrialConfig) (segs : List Segment)
    (idx : Nat) (live : Int) (cur : Segment)
    (hcur : segs[idx]? = some cur)
    (htype : cur.type = SegType.rebuttal)
    (hdur : cur.duration = JNum.inf) :
    (displayRemainingTime cfg segs idx live).totalBudget
        = max 0 (min cfg.maxRebuttalDuration
            (cfg.pClosingDuration - pClosingActualElapsed segs))
      ∧ (displayRemainingTime cfg segs idx live).value
          = max 0 ((displayRemainingTime cfg segs idx live).totalBudget - live)
      ∧ (displayRemainingTime cfg segs idx live).overtime
          = max 0 (live - (displayRemainingTime cfg segs idx live).totalBudget) := by
  unfold displayRemainingTime
  rw [hcur]
  dsimp only
  rw [hdur]
  rw [if_pos htype]
  dsimp only
  split
  · rename_i hneg
    refine ⟨rfl, ?_, ?_⟩ <;> dsimp only <;> omega
  · rename_i hneg
    refine ⟨rfl, ?_, ?_⟩ <;> dsimp only <;> omega

/-- Witness for C3: with plaintiff closing duration 420, committed closing
elapsed 300, and rebuttal cap 180, the allotment is 120. -/
theorem c3_rebuttal_allotment_witness :
    (displayRemainingTime cfgDemo segsDemoRebuttal 12 0).totalBudget = 120 := by
  have h := c3_rebuttal_allotment cfgDemo segsDemoRebuttal 12 0
    (rebuttalSeg cfgDemo) (by decide) (by decide) (by decide)
  exact h.1.trans (by decide)

/-! ## C5: fixed-duration remaining edit (code bug on the rebuttal) -/

/-- C5 (code bug): the fixed-duration remaining edit is supposed to store
`clamp(effectiveAllotment - desiredRemaining, 0, effectiveAllotment)` — a
finite value (here `clamp(120 - 60, 0, 120) = 60`) — but the handler reads
`segment.duration`, which is `Infinity` for the generated rebuttal segment
(the effective cap passed as `originalDuration` in the modal context is
never read), so both the live counter and the stored `actualElapsed`
receive `Infinity`. -/
theorem c5_fixed_edit_rebuttal_evaluates_to_infinity :
    (generateAllTrialSegments cfgDemo)[12]? = some (rebuttalSeg cfgDemo)
      ∧ (rebuttalSeg cfgDemo).type = SegType.rebuttal
      ∧ (rebuttalSeg cfgDemo).duration = JNum.inf
      ∧ (displayRemainingTime cfgDemo segsDemoRebuttal 12 0).totalBudget = 120
      ∧ handleEditTimeSaveFixed (rebuttalSeg cfgDemo) 60
          = { newCurrentSegmentElapsed := JNum.inf, newStoredElapsed := JNum.inf }
      ∧ JNum.fin (max 0 (min (120 - 60) 120)) = JNum.fin 60 := by
  decide

/-- For finite durations (opening/closing) the fixed-duration remaining
edit does implement the clamp of the specification. -/
theorem fixed_edit_finite_duration_clamps (seg : Segment) (d : Int)
    (hdur : seg.duration = JNum.fin d) (newTime : Int) :
    handleEditTimeSaveFixed seg newTime
      = { newCurrentSegmentElapsed := JNum.fin (max 0 (min (d - newTime) d)),
          newStoredElapsed := JNum.fin (max 0 (min (d - newTime) d)) } := by
  unfold handleEditTimeSaveFixed fixedRemainingEditFinalElapsed
  rw [hdur]
  rfl

/-- Witness for `fixed_edit_finite_duration_clamps`: a 420 s closing edited
to 100 s remaining stores 320 s. -/
theorem fixed_edit_finite_duration_clamps_witness :
    handleEditTimeSaveFixed (pClosingSeg cfgDemo) 100
      = { newCurrentSegmentElapsed := JNum.fin 320, newStoredElapsed := JNum.fin 320 } := by
  have h := fixed_edit_finite_duration_clamps (pClosingSeg cfgDemo) 420 (by decide) 100
  exact h.trans (by decide)

/-! ## C4: shared-budget remaining edit conservation -/

/-- C4: for a shared-budget remaining edit with desired remaining
`r ∈ [0, configured total]`, the recomputed contributed usage strictly
before the active index plus the new live counter equals exactly
`configured total - r`; no stored value becomes negative; the configuration
record (hence the configured budget total) is unchanged. -/
theorem c4_budget_remaining_edit_conservation (st : AppState) (budgetKey : BudgetKey)
    (r : Int) (st' : AppState)
    (hst' : st' = handleEditTimeSaveBudget st budgetKey
        (usedBeforeCurrent st.trialSegments st.currentSegmentIndex budgetKey) r)
    (hr0 : 0 ≤ r) (hr1 : r ≤ st.trialConfig.budgetTotal budgetKey)
    (hnn : ∀ s ∈ st.trialSegments, 0 ≤ s.actualElapsed) :
    usedBeforeCurrent st'.trialSegments st'.currentSegmentIndex budgetKey
        + st'.currentSegmentElapsed
      = st.trialConfig.budgetTotal budgetKey - r
    ∧ (∀ s ∈ st'.trialSegments, 0 ≤ s.actualElapsed)
    ∧ st'.trialConfig = st.trialConfig := by
  subst hst'
  unfold handleEditTimeSaveBudget
  set total := st.trialConfig.budgetTotal budgetKey with htotal
  set u := usedBeforeCurrent st.trialSegments st.currentSegmentIndex budgetKey with hu
  dsimp only
  split
  · -- negative case: deduct the excess from earlier contributing segments
    rename_i hneg
    set excess := -(total - r - u) with hexcess
    have h0 : 0 ≤ excess := by omega
    have h1 : excess ≤ u := by rw [hexcess, hu]; omega
    obtain ⟨hub, _⟩ := deductWalk_spec budgetKey st.currentSegmentIndex excess
      st.trialSegments h0 (by rw [← hu]; exact h1)
    refine ⟨?_, ?_, rfl⟩
    · dsimp only
      rw [hub]
      omega
    · exact deductWalk_nonneg budgetKey _ _ _ hnn
  · -- non-negative case: only the live counter changes
    rename_i hneg
    refine ⟨?_, hnn, rfl⟩
    dsimp only
    have : min (total - r - u) (total - u) = total - r - u := min_eq_left (by omega)
    rw [this]
    omega

/-- Witness for C4 at a concrete state: fresh `cfgDemo` timeline, editing
the plaintiff direct budget (1500 s) to 100 s remaining yields
`usedBefore + live = 1400`. -/
theorem c4_budget_remaining_edit_conservation_witness :
    usedBeforeCurrent (handleEditTimeSaveBudget (startTrial cfgDemo)
          BudgetKey.pOverallDirectDuration 0 100).trialSegments
        (handleEditTimeSaveBudget (startTrial cfgDemo)
          BudgetKey.pOverallDirectDuration 0 100).currentSegmentIndex
        BudgetKey.pOverallDirectDuration
      + (handleEditTimeSaveBudget (startTrial cfgDemo)
          BudgetKey.pOverallDirectDuration 0 100).currentSegmentElapsed = 1400 := by
  have h := c4_budget_remaining_edit_conservation (startTrial cfgDemo)
    BudgetKey.pOverallDirectDuration 100
    (handleEditTimeSaveBudget (startTrial cfgDemo) BudgetKey.pOverallDirectDuration 0 100)
    (by decide) (by decide) (by decide)
    (fun s hs => le_of_eq (generate_elapsed_zero hs).symm)
  exact h.1.trans (by decide)

/-! ## C9: edits never produce negative or non-numeric values -/

/-- C9: for every edit kind and every raw minutes/seconds input — including
malformed input (`parseInt` gives `NaN`, modelled `none`) and negative
numbers — the modal pipeline coerces the input to a non-negative number of
seconds, and after the edit no stored `actualElapsed` and no live counter
is negative (or `NaN`): the segment edit and the budget edit store
non-negative integers, and the fixed-remaining edit stores a non-negative
(possibly infinite) number. -/
theorem c9_edits_never_negative (rawMinutes rawSeconds : Option Int)
    (st : AppState) (target : Segment) (budgetKey : BudgetKey)
    (usedBefore : Int) (seg : Segment) (newTime : Int)
    (hnewTime : newTime = newTimeInSecondsFromModal
        (modalMinutesValue rawMinutes) (modalSecondsValue rawSeconds))
    (hnn : ∀ s ∈ st.trialSegments, 0 ≤ s.actualElapsed)
    (hlive : 0 ≤ st.currentSegmentElapsed) :
    0 ≤ newTime
    ∧ (∀ s ∈ (handleEditTimeSaveSegment st target newTime).trialSegments,
        0 ≤ s.actualElapsed)
    ∧ 0 ≤ (handleEditTimeSaveSegment st target newTime).currentSegmentElapsed
    ∧ (∀ s ∈ (handleEditTimeSaveBudget st budgetKey usedBefore newTime).trialSegments,
        0 ≤ s.actualElapsed)
    ∧ 0 ≤ (handleEditTimeSaveBudget st budgetKey usedBefore newTime).currentSegmentElapsed
    ∧ (handleEditTimeSaveFixed seg newTime).newCurrentSegmentElapsed.nonneg
    ∧ (handleEditTimeSaveFixed seg newTime).newStoredElapsed.nonneg := by
  have h0 : 0 ≤ newTime := by
    rw [hnewTime]
    unfold newTimeInSecondsFromModal modalMinutesValue modalSecondsValue
    positivity
  refine ⟨h0, ?_, ?_, ?_, ?_, ?_, ?_⟩
  · -- segment edit: stored values
    intro s hs
    unfold handleEditTimeSaveSegment at hs
    dsimp only at hs
    rw [List.mem_map] at hs
    obtain ⟨t, ht, rfl⟩ := hs
    by_cases hid : (t.id == target.id) = true
    · rw [if_pos hid]; exact h0
    · rw [if_neg hid]; exact hnn t ht
  · -- segment edit: live counter
    unfold handleEditTimeSaveSegment
    dsimp only
    split
    · exact h0
    · exact hlive
  · -- budget edit: stored values
    intro s hs
    unfold handleEditTimeSaveBudget at hs
    dsimp only at hs
    split at hs
    · exact deductWalk_nonneg budgetKey _ _ _ hnn s hs
    · exact hnn s hs
  · -- budget edit: live counter
    unfold handleEditTimeSaveBudget
    dsimp only
    split
    · exact le_refl 0
    · rename_i hge
      dsimp only
      rcases min_cases (st.trialConfig.budgetTotal budgetKey - newTime - usedBefore)
        (st.trialConfig.budgetTotal budgetKey - usedBefore) with ⟨heq, _⟩ | ⟨heq, hlt⟩
      · omega
      · omega
  · -- fixed edit: live counter
    unfold handleEditTimeSaveFixed fixedRemainingEditFinalElapsed
    cases seg.duration with
    | fin d =>
      show JNum.nonneg (JNum.fin (max 0 (min (d - newTime) d)))
      simp [JNum.nonneg]
    | inf =>
      show JNum.nonneg JNum.inf
      trivial
  · -- fixed edit: stored value
    unfold handleEditTimeSaveFixed fixedRemainingEditFinalElapsed
    cases seg.duration with
    | fin d =>
      show JNum.nonneg (JNum.fin (max 0 (min (d - newTime) d)))
      simp [JNum.nonneg]
    | inf =>
      show JNum.nonneg JNum.inf
      trivial

/-- Witness for C9: malformed minutes (`none`) and `-25` seconds coerce to
0 seconds, and the three edit kinds at a fresh `cfgDemo` state keep every
value non-negative. -/
theorem c9_edits_never_negative_witness :
    0 ≤ newTimeInSecondsFromModal (modalMinutesValue none) (modalSecondsValue (some (-25)))
    ∧ newTimeInSecondsFromModal (modalMinutesValue none) (modalSecondsValue (some (-25))) = 0
    ∧ 0 ≤ (handleEditTimeSaveSegment (startTrial cfgDemo) (pOpeningSeg cfgDemo)
        (newTimeInSecondsFromModal (modalMinutesValue none)
          (modalSecondsValue (some (-25))))).currentSegmentElapsed := by
  have h := c9_edits_never_negative none (some (-25)) (startTrial cfgDemo)
    (pOpeningSeg cfgDemo) BudgetKey.pOverallDirectDuration 0 (pOpeningSeg cfgDemo)
    (newTimeInSecondsFromModal (modalMinutesValue none) (modalSecondsValue (some (-25))))
    rfl (fun s hs => le_of_eq (generate_elapsed_zero hs).symm) (by decide)
  exact ⟨h.1, by decide, h.2.2.1⟩

/-! ## C2: the witness quadruples -/

theorem pWitnessSegs_getElem (j : Nat) :
    ∀ (count i k : Nat), j < count → k < 4 →
      (pWitnessSegs count i)[4*j + k]? = (pWitnessQuad (i + j))[k]? := by
  induction j with
  | zero =>
    intro count i k hj hk
    cases count with
    | zero => omega
    | succ c =>
      show (pWitnessQuad i ++ pWitnessSegs c (i+1))[4*0 + k]? = _
      rw [List.getElem?_append]
      rw [if_pos (by simp [pWitnessQuad]; omega)]
      congr 1
      omega
  | succ j ih =>
    intro count i k hj hk
    cases count with
    | zero => omega
    | succ c =>
      show (pWitnessQuad i ++ pWitnessSegs c (i+1))[4*(j+1) + k]? = _
      rw [List.getElem?_append]
      rw [if_neg (by simp [pWitnessQuad]; omega)]
      have hidx : 4*(j+1) + k - (pWitnessQuad i).length = 4*j + k := by
        simp [pWitnessQuad]; omega
      rw [hidx, ih c (i+1) k (by omega) hk]
      congr 2
      omega

theorem dWitnessSegs_getElem (p : Nat) (j : Nat) :
    ∀ (count i k : Nat), j < count → k < 4 →
      (dWitnessSegs p count i)[4*j + k]? = (dWitnessQuad p (i + j))[k]? := by
  induction j with
  | zero =>
    intro count i k hj hk
    cases count with
    | zero => omega
    | succ c =>
      show (dWitnessQuad p i ++ dWitnessSegs p c (i+1))[4*0 + k]? = _
      rw [List.getElem?_append]
      rw [if_pos (by simp [dWitnessQuad]; omega)]
      congr 1
      omega
  | succ j ih =>
    intro count i k hj hk
    cases count with
    | zero => omega
    | succ c =>
      show (dWitnessQuad p i ++ dWitnessSegs p c (i+1))[4*(j+1) + k]? = _
      rw [List.getElem?_append]
      rw [if_neg (by simp [dWitnessQuad]; omega)]
      have hidx : 4*(j+1) + k - (dWitnessQuad p i).length = 4*j + k := by
        simp [dWitnessQuad]; omega
      rw [hidx, ih c (i+1) k (by omega) hk]
      congr 2
      omega

/-- Position `2 + 4j + k` of the generated timeline is element `k` of the
`j`-th plaintiff-witness quadruple. -/
theorem generate_getElem_pQuad (cfg : TrialConfig) (j k : Nat)
    (hj : j < cfg.plaintiffWitnessCount) (hk : k < 4) :
    (generateAllTrialSegments cfg)[2 + 4*j + k]? = (pWitnessQuad j)[k]? := by
  unfold generateAllTrialSegments
  rw [List.getElem?_append]
  rw [if_pos (by simp [pWitnessSegs_length, dWitnessSegs_length]; omega)]
  rw [List.getElem?_append]
  rw [if_pos (by simp [pWitnessSegs_length]; omega)]
  rw [List.getElem?_append]
  rw [if_neg (by simp; omega)]
  have hlen : ([pOpeningSeg cfg, dOpeningSeg cfg] : List Segment).length = 2 := rfl
  rw [hlen]
  have h2 : 2 + 4*j + k - 2 = 4*j + k := by omega
  rw [h2]
  have := pWitnessSegs_getElem j cfg.plaintiffWitnessCount 0 k hj hk
  simpa using this

/-- Position `2 + 4p + 4j + k` of the generated timeline is element `k` of
the `j`-th defense-witness quadruple. -/
theorem generate_getElem_dQuad (cfg : TrialConfig) (j k : Nat)
    (hj : j < cfg.defenseWitnessCount) (hk : k < 4) :
    (generateAllTrialSegments cfg)[2 + 4*cfg.plaintiffWitnessCount + 4*j + k]?
      = (dWitnessQuad cfg.plaintiffWitnessCount j)[k]? := by
  unfold generateAllTrialSegments
  rw [List.getElem?_append]
  rw [if_pos (by simp [pWitnessSegs_length, dWitnessSegs_length]; omega)]
  rw [List.getElem?_append]
  rw [if_neg (by simp [pWitnessSegs_length]; omega)]
  have hlen : (([pOpeningSeg cfg, dOpeningSeg cfg] : List Segment)
      ++ pWitnessSegs cfg.plaintiffWitnessCount 0).length
      = 2 + 4*cfg.plaintiffWitnessCount := by
    simp [pWitnessSegs_length]; omega
  rw [hlen]
  have h3 : 2 + 4*cfg.plaintiffWitnessCount + 4*j + k - (2 + 4*cfg.plaintiffWitnessCount)
      = 4*j + k := by omega
  rw [h3]
  have := dWitnessSegs_getElem cfg.plaintiffWitnessCount j cfg.defenseWitnessCount 0 k hj hk
  simpa using this

/-- C2 (counterexample): the claim asserts that a plaintiff witness's
redirect segment is taken by the defense side; in the generated timeline it
is a plaintiff-side segment (it reuses the side of the direct). -/
theorem c2_counterexample_redirect_side :
    ((generateAllTrialSegments cfgDemo)[4]?).map Segment.side = some (some Side.plaintiff)
      ∧ ((generateAllTrialSegments cfgDemo)[4]?).map Segment.type = some SegType.redirect
      ∧ some Side.plaintiff ≠ some Side.defense := by
  decide

/-- C2 (amended): for each plaintiff witness `i` the generator emits, in
order, plaintiff-direct, defense-cross, plaintiff-redirect (conditional)
and defense-recross (conditional) — the redirect keeps the side of the
direct and the recross the side of the cross; each defense-witness
quadruple is the same with the sides swapped; and the conditional flag is
set exactly on the redirect and recross segments. -/
theorem c2_witness_quadruple_order (cfg : TrialConfig) (i : Nat) :
    (i < cfg.plaintiffWitnessCount →
      ((generateAllTrialSegments cfg)[2 + 4*i]?).map
          (fun s => (s.type, s.side, s.witnessIndex, s.isConditional))
        = some (SegType.direct, some Side.plaintiff, some i, false)
      ∧ ((generateAllTrialSegments cfg)[2 + 4*i + 1]?).map
          (fun s => (s.type, s.side, s.witnessIndex, s.isConditional))
        = some (SegType.cross, some Side.defense, some i, false)
      ∧ ((generateAllTrialSegments cfg)[2 + 4*i + 2]?).map
          (fun s => (s.type, s.side, s.witnessIndex, s.isConditional))
        = some (SegType.redirect, some Side.plaintiff, some i, true)
      ∧ ((generateAllTrialSegments cfg)[2 + 4*i + 3]?).map
          (fun s => (s.type, s.side, s.witnessIndex, s.isConditional))
        = some (SegType.recross, some Side.defense, some i, true))
    ∧ (i < cfg.defenseWitnessCount →
      ((generateAllTrialSegments cfg)[2 + 4*cfg.plaintiffWitnessCount + 4*i]?).map
          (fun s => (s.type, s.side, s.witnessIndex, s.isConditional))
        = some (SegType.direct, some Side.defense, some i, false)
      ∧ ((generateAllTrialSegments cfg)[2 + 4*cfg.plaintiffWitnessCount + 4*i + 1]?).map
          (fun s => (s.type, s.side, s.witnessIndex, s.isConditional))
        = some (SegType.cross, some Side.plaintiff, some i, false)
      ∧ ((generateAllTrialSegments cfg)[2 + 4*cfg.plaintiffWitnessCount + 4*i + 2]?).map
          (fun s => (s.type, s.side, s.witnessIndex, s.isConditional))
        = some (SegType.redirect, some Side.defense, some i, true)
      ∧ ((generateAllTrialSegments cfg)[2 + 4*cfg.plaintiffWitnessCount + 4*i + 3]?).map
          (fun s => (s.type, s.side, s.witnessIndex, s.isConditional))
        = some (SegType.recross, some Side.plaintiff, some i, true))
    ∧ (∀ s ∈ generateAllTrialSegments cfg,
        s.isConditional = true ↔ (s.type = .redirect ∨ s.type = .recross)) := by
  refine ⟨?_, ?_, fun s hs => generate_conditional_iff hs⟩
  · intro hi
    refine ⟨?_, ?_, ?_, ?_⟩
    · have h := generate_getElem_pQuad cfg i 0 hi (by omega)
      simp only [Nat.add_zero] at h
      rw [h]; rfl
    · rw [generate_getElem_pQuad cfg i 1 hi (by omega)]; rfl
    · rw [generate_getElem_pQuad cfg i 2 hi (by omega)]; rfl
    · rw [generate_getElem_pQuad cfg i 3 hi (by omega)]; rfl
  · intro hi
    refine ⟨?_, ?_, ?_, ?_⟩
    · have h := generate_getElem_dQuad cfg i 0 hi (by omega)
      simp only [Nat.add_zero] at h
      rw [h]; rfl
    · rw [generate_getElem_dQuad cfg i 1 hi (by omega)]; rfl
    · rw [generate_getElem_dQuad cfg i 2 hi (by omega)]; rfl
    · rw [generate_getElem_dQuad cfg i 3 hi (by omega)]; rfl

/-- Witness for C2 (amended) at `cfgDemo`, witness 0: the four plaintiff
quadruple positions have the stated kinds and sides. -/
theorem c2_witness_quadruple_order_witness :
    ((generateAllTrialSegments cfgDemo)[2]?).map
        (fun s => (s.type, s.side, s.witnessIndex, s.isConditional))
      = some (SegType.direct, some Side.plaintiff, some 0, false)
    ∧ ((generateAllTrialSegments cfgDemo)[4]?).map
        (fun s => (s.type, s.side, s.witnessIndex, s.isConditional))
      = some (SegType.redirect, some Side.plaintiff, some 0, true) := by
  have h := c2_witness_quadruple_order cfgDemo 0
  have h1 := h.1 (by decide)
  exact ⟨h1.1, h1.2.2.1⟩

/-! ## C6 and C7: the conditional-skip decision handlers -/

/-- C6 (code bug): with the redirect prompt pending for witness 0 at the
cross (index 3) and 2 s previously recorded on that witness's redirect
(index 4), answering "No" moves the cursor to the first segment past the
conditional pair (index 6) but leaves the redirect's `actualElapsed` at 2 —
the marking loop starts three positions after the cross and therefore never
touches the redirect/recross pair it is documented to zero. -/
theorem c6_redirect_no_leaves_recorded_time :
    (runTrace (startTrial cfgDemo) traceC6pre).showRedirectPrompt = true
      ∧ (runTrace (startTrial cfgDemo) traceC6pre).currentSegmentIndex = 3
      ∧ typeAt (runTrace (startTrial cfgDemo) traceC6pre).trialSegments 4
          = some SegType.redirect
      ∧ elapsedAt (runTrace (startTrial cfgDemo) traceC6pre).trialSegments 4 = 2
      ∧ runTrace (startTrial cfgDemo) traceC6
          = handleRedirectDecisionPrompt (runTrace (startTrial cfgDemo) traceC6pre) false
      ∧ (runTrace (startTrial cfgDemo) traceC6).currentSegmentIndex = 6
      ∧ elapsedAt (runTrace (startTrial cfgDemo) traceC6).trialSegments 4 = 2 := by
  decide

/-- C7 (code bug): with the recross prompt pending at the redirect
(index 4), answering "No" lands the cursor *on* the recross segment
(index 5) and marks nothing as skipped: the marking loop requires the
recross to have the same side as the originating redirect, which is never
true. -/
theorem c7_recross_no_lands_on_recross :
    (runTrace (startTrial cfgDemo) traceC7pre).showRecrossPrompt = true
      ∧ (runTrace (startTrial cfgDemo) traceC7pre).currentSegmentIndex = 4
      ∧ runTrace (startTrial cfgDemo) traceC7
          = handleRecrossDecisionPrompt (runTrace (startTrial cfgDemo) traceC7pre) false
      ∧ (runTrace (startTrial cfgDemo) traceC7).currentSegmentIndex = 5
      ∧ typeAt (runTrace (startTrial cfgDemo) traceC7).trialSegments 5
          = some SegType.recross
      ∧ (runTrace (startTrial cfgDemo) traceC7).trialSegments
          = (runTrace (startTrial cfgDemo) traceC7pre).trialSegments := by
  decide

/-! ## C10: jump-to -/

/-- C10 (counterexample): jumping to the active segment's own id loads the
segment's *pre-commit* stored value: after `traceC10` the opening's
committed elapsed is 3 s (the just-committed live value) but the live
counter was loaded as 2 s (the previously stored value), not 3. -/
theorem c10_counterexample_self_jump :
    (runTrace (startTrial cfgDemo) traceC10).currentSegmentIndex = 0
      ∧ elapsedAt (runTrace (startTrial cfgDemo) traceC10).trialSegments 0 = 3
      ∧ (runTrace (startTrial cfgDemo) traceC10).currentSegmentElapsed = 2
      ∧ (2 : Int) ≠ 3 := by
  decide

/-- C10 (amended): a jump to a segment id present in the list stops the run
flag, commits the live counter into the currently active segment, sets the
active index to the target's index and loads the target's stored
`actualElapsed` *as it stood before the commit*; when the target is not the
active segment itself this coincides with the post-commit stored value. -/
theorem c10_jump_commits_and_loads_precommit (st : AppState) (segmentId k : Nat)
    (hp1 : st.showRedirectPrompt = false) (hp2 : st.showRecrossPrompt = false)
    (hfound : st.trialSegments.findIdx? (fun seg => seg.id == segmentId) = some k) :
    goToSegmentFromSummary st segmentId
        = { st with isRunning := false,
                    trialSegments := saveCurrentSegmentTime st,
                    currentSegmentIndex := k,
                    currentSegmentElapsed := elapsedAt st.trialSegments k }
      ∧ (k ≠ st.currentSegmentIndex →
          elapsedAt st.trialSegments k = elapsedAt (saveCurrentSegmentTime st) k) := by
  constructor
  · unfold goToSegmentFromSummary
    rw [hp1, hp2]
    simp only [Bool.or_self, Bool.false_eq_true, if_false]
    rw [hfound]
  · intro hk
    unfold saveCurrentSegmentTime
    cases hcur : st.trialSegments[st.currentSegmentIndex]? with
    | none => rfl
    | some cur =>
      dsimp only
      split
      · unfold elapsedAt
        rw [List.getElem?_set_ne (by omega)]
      · rfl

/-- Witness for C10 (amended): jumping from a fresh `cfgDemo` state to the
defense opening (id 1) lands at index 1 with the run flag off and live
counter 0. -/
theorem c10_jump_commits_and_loads_precommit_witness :
    (goToSegmentFromSummary (startTrial cfgDemo) 1).currentSegmentIndex = 1
      ∧ (goToSegmentFromSummary (startTrial cfgDemo) 1).isRunning = false
      ∧ (goToSegmentFromSummary (startTrial cfgDemo) 1).currentSegmentElapsed = 0 := by
  have h := c10_jump_commits_and_loads_precommit (startTrial cfgDemo) 1 1 rfl rfl (by decide)
  rw [h.1]
  exact ⟨rfl, rfl, by decide⟩

/-! ## C8 (counterexample): the claimed tick conservation fails -/

/-- C8 (counterexample): after `traceC8cx` (two ticks, retreat at index 0,
one more tick, advance) on a fresh timeline, 3 ticks were delivered while
running, yet the sum of all stored `actualElapsed` plus the live counter is
1: retreat at index 0 committed 2 s and zeroed the live counter, and the
subsequent advance overwrote the stored 2 s with the later 1 s. -/
theorem c8_counterexample_retreat_at_zero :
    totalElapsedSum (runTrace (startTrial cfgDemo) traceC8cx).trialSegments
        + (runTrace (startTrial cfgDemo) traceC8cx).currentSegmentElapsed = 1
      ∧ (runTrace (startTrial cfgDemo) traceC8cx).ticksDelivered = 3
      ∧ (1 : Int) ≠ 3 := by
  decide

theorem typeAt_eq_some_iff {segs : List Segment} {i : Nat} {ty : SegType} :
    typeAt segs i = some ty ↔ ∃ s, segs[i]? = some s ∧ s.type = ty := by
  unfold typeAt
  cases h : segs[i]? with
  | none => simp
  | some s => simp

theorem totalElapsedSum_set {segs : List Segment} :
    ∀ {a : Nat} {s : Segment}, segs[a]? = some s → ∀ v : Int,
      totalElapsedSum (segs.set a { s with actualElapsed := v })
        = totalElapsedSum segs - s.actualElapsed + v := by
  induction segs with
  | nil => intro a s h v; simp at h
  | cons x xs ih =>
    intro a s h v
    cases a with
    | zero =>
      simp only [List.getElem?_cons_zero, Option.some_inj] at h
      subst h
      simp [totalElapsedSum, List.set]
      ring
    | succ a =>
      simp only [List.getElem?_cons_succ] at h
      simp only [List.set, totalElapsedSum, List.map_cons, List.sum_cons]
      have := ih h v
      unfold totalElapsedSum at this
      rw [this]
      ring

theorem elapsedAt_set_self {segs : List Segment} {a : Nat} {s : Segment}
    (h : segs[a]? = some s) (v : Int) :
    elapsedAt (segs.set a { s with actualElapsed := v }) a = v := by
  have hlen : a < segs.length := by
    by_contra hge
    rw [List.getElem?_eq_none (by omega)] at h
    exact Option.noConfusion h
  unfold elapsedAt
  rw [List.getElem?_set_self hlen]

theorem elapsedAt_set_ne {segs : List Segment} {a j : Nat} (h : a ≠ j) (w : Segment) :
    elapsedAt (segs.set a w) j = elapsedAt segs j := by
  unfold elapsedAt
  rw [List.getElem?_set_ne h]

theorem typeAt_set_elapsed {segs : List Segment} {a : Nat} {s : Segment}
    (h : segs[a]? = some s) (v : Int) (j : Nat) :
    typeAt (segs.set a { s with actualElapsed := v }) j = typeAt segs j := by
  rcases eq_or_ne a j with rfl | hne
  · have hlen : a < segs.length := by
      by_contra hge
      rw [List.getElem?_eq_none (by omega)] at h
      exact Option.noConfusion h
    unfold typeAt
    rw [List.getElem?_set_self hlen, h]
    rfl
  · unfold typeAt
    rw [List.getElem?_set_ne hne]

theorem map_stripElapsed_set {segs : List Segment} {a : Nat} {s : Segment}
    (h : segs[a]? = some s) (v : Int) :
    (segs.set a { s with actualElapsed := v }).map stripElapsed
      = segs.map stripElapsed := by
  apply List.ext_getElem?
  intro i
  rw [List.getElem?_map, List.getElem?_map]
  rcases eq_or_ne a i with rfl | hne
  · have hlen : a < segs.length := by
      by_contra hge
      rw [List.getElem?_eq_none (by omega)] at h
      exact Option.noConfusion h
    rw [List.getElem?_set_self hlen, h]
    rfl
  · rw [List.getElem?_set_ne hne]

theorem elapsedAt_eq_zero_of_all {segs : List Segment}
    (h : ∀ s ∈ segs, s.actualElapsed = 0) (i : Nat) : elapsedAt segs i = 0 := by
  unfold elapsedAt
  cases hi : segs[i]? with
  | none => rfl
  | some s => exact h s (List.getElem?_mem hi)

theorem totalElapsedSum_eq_zero {segs : List Segment}
    (h : ∀ s ∈ segs, s.actualElapsed = 0) : totalElapsedSum segs = 0 := by
  unfold totalElapsedSum
  apply List.sum_eq_zero
  intro x hx
  rw [List.mem_map] at hx
  obtain ⟨s, hs, rfl⟩ := hx
  exact h s hs

/-! ### Commit (`saveCurrentSegmentTime`) facts -/

theorem commit_of_not_end {st : AppState} {cur : Segment}
    (hcur : st.trialSegments[st.currentSegmentIndex]? = some cur)
    (hne : cur.type ≠ SegType.endMarker) :
    saveCurrentSegmentTime st
      = st.trialSegments.set st.currentSegmentIndex
          { cur with actualElapsed := st.currentSegmentElapsed } := by
  unfold saveCurrentSegmentTime
  rw [hcur]
  dsimp only
  rw [if_pos hne]

theorem commit_of_end {st : AppState} {cur : Segment}
    (hcur : st.trialSegments[st.currentSegmentIndex]? = some cur)
    (hend : cur.type = SegType.endMarker) :
    saveCurrentSegmentTime st = st.trialSegments := by
  unfold saveCurrentSegmentTime
  rw [hcur]
  dsimp only
  rw [if_neg (by simp [hend])]

theorem commit_length (st : AppState) :
    (saveCurrentSegmentTime st).length = st.trialSegments.length := by
  unfold saveCurrentSegmentTime
  cases st.trialSegments[st.currentSegmentIndex]? with
  | none => rfl
  | some cur =>
    dsimp only
    split
    · rw [List.length_set]
    · rfl

theorem commit_typeAt (st : AppState) (j : Nat) :
    typeAt (saveCurrentSegmentTime st) j = typeAt st.trialSegments j := by
  unfold saveCurrentSegmentTime
  cases hcur : st.trialSegments[st.currentSegmentIndex]? with
  | none => rfl
  | some cur =>
    dsimp only
    split
    · exact typeAt_set_elapsed hcur _ j
    · rfl

theorem commit_elapsedAt_ne (st : AppState) {j : Nat}
    (hj : j ≠ st.currentSegmentIndex) :
    elapsedAt (saveCurrentSegmentTime st) j = elapsedAt st.trialSegments j := by
  unfold saveCurrentSegmentTime
  cases hcur : st.trialSegments[st.currentSegmentIndex]? with
  | none => rfl
  | some cur =>
    dsimp only
    split
    · exact elapsedAt_set_ne (by omega) _
    · rfl

theorem commit_elapsedAt_self {st : AppState} {cur : Segment}
    (hcur : st.trialSegments[st.currentSegmentIndex]? = some cur)
    (hne : cur.type ≠ SegType.endMarker) :
    elapsedAt (saveCurrentSegmentTime st) st.currentSegmentIndex
      = st.currentSegmentElapsed := by
  rw [commit_of_not_end hcur hne]
  exact elapsedAt_set_self hcur _

theorem commit_skeleton (st : AppState) :
    (saveCurrentSegmentTime st).map stripElapsed = st.trialSegments.map stripElapsed := by
  unfold saveCurrentSegmentTime
  cases hcur : st.trialSegments[st.currentSegmentIndex]? with
  | none => rfl
  | some cur =>
    dsimp only
    split
    · exact map_stripElapsed_set hcur _
    · rfl

/-- The committed list's total: provided the active segment is in range and
(if it is the end marker) the live counter equals its stored value, the
total becomes `old total - old active stored + live`. -/
theorem commit_totalSum {st : AppState} {cur : Segment}
    (hcur : st.trialSegments[st.currentSegmentIndex]? = some cur)
    (hend : cur.type = SegType.endMarker →
      st.currentSegmentElapsed = elapsedAt st.trialSegments st.currentSegmentIndex) :
    totalElapsedSum (saveCurrentSegmentTime st)
      = totalElapsedSum st.trialSegments
        - elapsedAt st.trialSegments st.currentSegmentIndex
        + st.currentSegmentElapsed := by
  by_cases he : cur.type = SegType.endMarker
  · rw [commit_of_end hcur he, hend he]
    ring
  · rw [commit_of_not_end hcur he, totalElapsedSum_set hcur]
    unfold elapsedAt
    rw [hcur]

/-! ### Skeleton transfer -/

theorem skeleton_length {segs base : List Segment}
    (h : segs.map stripElapsed = base.map stripElapsed) :
    segs.length = base.length := by
  have := congrArg List.length h
  simpa using this

theorem skeleton_at {segs base : List Segment}
    (h : segs.map stripElapsed = base.map stripElapsed)
    {i : Nat} {s : Segment} (hs : segs[i]? = some s) :
    ∃ b, base[i]? = some b ∧ s.type = b.type ∧ s.side = b.side
      ∧ s.witnessIndex = b.witnessIndex ∧ s.isConditional = b.isConditional := by
  have hf := congrArg (fun l => l[i]?) h
  simp only [List.getElem?_map] at hf
  rw [hs] at hf
  cases hb : base[i]? with
  | none =>
    rw [hb] at hf
    exact Option.noConfusion hf
  | some b =>
    rw [hb] at hf
    simp only [Option.map_some', Option.some_inj, stripElapsed] at hf
    rw [Segment.mk.injEq] at hf
    exact ⟨b, rfl, hf.2.1, hf.2.2.1, hf.2.2.2.1, hf.2.2.2.2.2.2.1⟩

theorem skeleton_typeAt {segs base : List Segment}
    (h : segs.map stripElapsed = base.map stripElapsed) (i : Nat) :
    typeAt segs i = typeAt base i := by
  cases hs : segs[i]? with
  | none =>
    have hlen := skeleton_length h
    have hge : segs.length ≤ i := by
      by_contra hlt
      push_neg at hlt
      rw [List.getElem?_eq_getElem hlt] at hs
      exact Option.noConfusion hs
    have hb : base[i]? = none := List.getElem?_eq_none (by omega)
    unfold typeAt
    rw [hs, hb]
  | some s =>
    obtain ⟨b, hb, ht, _⟩ := skeleton_at h hs
    unfold typeAt
    rw [hs, hb]
    simp [ht]

theorem localShape_tail (cfg : TrialConfig) :
    LocalShape [pClosingSeg cfg, dClosingSeg cfg, rebuttalSeg cfg, endOfTrialSeg cfg]
      ∧ HeadSafe [pClosingSeg cfg, dClosingSeg cfg, rebuttalSeg cfg, endOfTrialSeg cfg] := by
  constructor
  · intro i
    constructor
    · intro s hs hcross
      rcases i with _|_|_|_|i <;> simp at hs
      · subst hs; exact absurd hcross (by simp [pClosingSeg])
      · subst hs; exact absurd hcross (by simp [dClosingSeg])
      · subst hs; exact absurd hcross (by simp [rebuttalSeg])
      · subst hs; exact absurd hcross (by simp [endOfTrialSeg])
    · intro s hs hred
      rcases i with _|_|_|_|i <;> simp at hs
      · subst hs; exact absurd hred (by simp [pClosingSeg])
      · subst hs; exact absurd hred (by simp [dClosingSeg])
      · subst hs; exact absurd hred (by simp [rebuttalSeg])
      · subst hs; exact absurd hred (by simp [endOfTrialSeg])
  · refine ⟨by simp, ?_⟩
    intro t ht
    simp only [List.getElem?_cons_zero, Option.some_inj] at ht
    subst ht
    simp [pClosingSeg]

/-- Prepending a direct/cross/redirect/recross quadruple (the recross
matching the redirect's witness but on the opposite side) preserves the
local shape, provided the list behind it starts head-safely. -/
theorem localShape_cons4 (a b c d : Segment) (l : List Segment)
    (hat : a.type = SegType.direct) (hbt : b.type = SegType.cross)
    (hct : c.type = SegType.redirect) (hdt : d.type = SegType.recross)
    (hcdw : d.witnessIndex = c.witnessIndex) (hcds : d.side ≠ c.side)
    (hl : LocalShape l) (hhead : HeadSafe l) :
    LocalShape (a :: b :: c :: d :: l) ∧ HeadSafe (a :: b :: c :: d :: l) := by
  constructor
  · intro i
    match i with
    | 0 =>
      constructor
      · intro s hs h
        simp only [List.getElem?_cons_zero, Option.some_inj] at hs
        subst hs; rw [hat] at h; cases h
      · intro s hs h
        simp only [List.getElem?_cons_zero, Option.some_inj] at hs
        subst hs; rw [hat] at h; cases h
    | 1 =>
      constructor
      · intro s hs _
        have h0 := hhead.1
        constructor
        · simp only [List.length_cons]
          omega
        · intro t ht
          refine hhead.2 t ?_
          simpa using ht
      · intro s hs h
        simp at hs
        subst hs; rw [hbt] at h; cases h
    | 2 =>
      constructor
      · intro s hs h
        simp at hs
        subst hs; rw [hct] at h; cases h
      · intro s hs _
        simp at hs
        subst hs
        exact ⟨d, by simp, hdt, hcdw, hcds⟩
    | 3 =>
      constructor
      · intro s hs h
        simp at hs
        subst hs; rw [hdt] at h; cases h
      · intro s hs h
        simp at hs
        subst hs; rw [hdt] at h; cases h
    | n + 4 =>
      constructor
      · intro s hs hcross
        have hs' : l[n]? = some s := by simpa using hs
        obtain ⟨hlt, hnext⟩ := (hl n).1 s hs' hcross
        constructor
        · simp only [List.length_cons]
          omega
        · intro t ht
          refine hnext t ?_
          have he : n + 4 + 3 = n + 3 + 4 := by omega
          rw [he] at ht
          simpa using ht
      · intro s hs hred
        have hs' : l[n]? = some s := by simpa using hs
        obtain ⟨t, ht, h1, h2, h3⟩ := (hl n).2 s hs' hred
        refine ⟨t, ?_, h1, h2, h3⟩
        have he : n + 4 + 1 = n + 1 + 4 := by omega
        rw [he]
        simpa using ht
  · refine ⟨by simp, ?_⟩
    intro t ht
    simp only [List.getElem?_cons_zero, Option.some_inj] at ht
    subst ht
    rw [hat]
    exact ⟨by simp, by simp⟩

/-- Prepending the two openings preserves the local shape. -/
theorem localShape_cons2 (a b : Segment) (l : List Segment)
    (hao : a.type = SegType.opening) (hbo : b.type = SegType.opening)
    (hl : LocalShape l) :
    LocalShape (a :: b :: l) := by
  intro i
  match i with
  | 0 =>
    constructor
    · intro s hs h
      simp only [List.getElem?_cons_zero, Option.some_inj] at hs
      subst hs; rw [hao] at h; cases h
    · intro s hs h
      simp only [List.getElem?_cons_zero, Option.some_inj] at hs
      subst hs; rw [hao] at h; cases h
  | 1 =>
    constructor
    · intro s hs h
      simp at hs
      subst hs; rw [hbo] at h; cases h
    · intro s hs h
      simp at hs
      subst hs; rw [hbo] at h; cases h
  | n + 2 =>
    constructor
    · intro s hs hcross
      have hs' : l[n]? = some s := by simpa using hs
      obtain ⟨hlt, hnext⟩ := (hl n).1 s hs' hcross
      constructor
      · simp only [List.length_cons]
        omega
      · intro t ht
        refine hnext t ?_
        have he : n + 2 + 3 = n + 3 + 2 := by omega
        rw [he] at ht
        simpa using ht
    · intro s hs hred
      have hs' : l[n]? = some s := by simpa using hs
      obtain ⟨t, ht, h1, h2, h3⟩ := (hl n).2 s hs' hred
      refine ⟨t, ?_, h1, h2, h3⟩
      have he : n + 2 + 1 = n + 1 + 2 := by omega
      rw [he]
      simpa using ht

theorem localShape_pWitnessSegs :
    ∀ (count i : Nat) (l : List Segment), LocalShape l → HeadSafe l →
      LocalShape (pWitnessSegs count i ++ l) ∧ HeadSafe (pWitnessSegs count i ++ l) := by
  intro count
  induction count with
  | zero =>
    intro i l h1 h2
    simpa [pWitnessSegs] using ⟨h1, h2⟩
  | succ c ih =>
    intro i l h1 h2
    obtain ⟨hl', hh'⟩ := ih (i+1) l h1 h2
    have heq : pWitnessSegs (c+1) i ++ l
        = (pWitnessQuad i).get ⟨0, by simp [pWitnessQuad]⟩
          :: (pWitnessQuad i).get ⟨1, by simp [pWitnessQuad]⟩
          :: (pWitnessQuad i).get ⟨2, by simp [pWitnessQuad]⟩
          :: (pWitnessQuad i).get ⟨3, by simp [pWitnessQuad]⟩
          :: (pWitnessSegs c (i+1) ++ l) := by
      show (pWitnessQuad i ++ pWitnessSegs c (i+1)) ++ l = _
      rw [List.append_assoc]
      rfl
    rw [heq]
    exact localShape_cons4 _ _ _ _ _ rfl rfl rfl rfl rfl
      (by show (some Side.defense : Option Side) ≠ some Side.plaintiff; simp) hl' hh'

theorem localShape_dWitnessSegs (p : Nat) :
    ∀ (count i : Nat) (l : List Segment), LocalShape l → HeadSafe l →
      LocalShape (dWitnessSegs p count i ++ l)
        ∧ HeadSafe (dWitnessSegs p count i ++ l) := by
  intro count
  induction count with
  | zero =>
    intro i l h1 h2
    simpa [dWitnessSegs] using ⟨h1, h2⟩
  | succ c ih =>
    intro i l h1 h2
    obtain ⟨hl', hh'⟩ := ih (i+1) l h1 h2
    have heq : dWitnessSegs p (c+1) i ++ l
        = (dWitnessQuad p i).get ⟨0, by simp [dWitnessQuad]⟩
          :: (dWitnessQuad p i).get ⟨1, by simp [dWitnessQuad]⟩
          :: (dWitnessQuad p i).get ⟨2, by simp [dWitnessQuad]⟩
          :: (dWitnessQuad p i).get ⟨3, by simp [dWitnessQuad]⟩
          :: (dWitnessSegs p c (i+1) ++ l) := by
      show (dWitnessQuad p i ++ dWitnessSegs p c (i+1)) ++ l = _
      rw [List.append_assoc]
      rfl
    rw [heq]
    exact localShape_cons4 _ _ _ _ _ rfl rfl rfl rfl rfl
      (by show (some Side.plaintiff : Option Side) ≠ some Side.defense; simp) hl' hh'

/-- The generated timeline satisfies the local shape facts. -/
theorem generate_localShape (cfg : TrialConfig) :
    LocalShape (generateAllTrialSegments cfg) := by
  obtain ⟨htail, htailH⟩ := localShape_tail cfg
  obtain ⟨hdw, hdwH⟩ := localShape_dWitnessSegs cfg.plaintiffWitnessCount
    cfg.defenseWitnessCount 0 _ htail htailH
  obtain ⟨hpw, _⟩ := localShape_pWitnessSegs cfg.plaintiffWitnessCount 0 _ hdw hdwH
  have heq : generateAllTrialSegments cfg
      = pOpeningSeg cfg :: dOpeningSeg cfg
        :: (pWitnessSegs cfg.plaintiffWitnessCount 0
            ++ (dWitnessSegs cfg.plaintiffWitnessCount cfg.defenseWitnessCount 0
              ++ [pClosingSeg cfg, dClosingSeg cfg, rebuttalSeg cfg, endOfTrialSeg cfg])) := by
    unfold generateAllTrialSegments
    rw [List.append_assoc, List.append_assoc]
    rfl
  rw [heq]
  exact localShape_cons2 _ _ _ rfl rfl hpw

/-! ### Loop bounds -/

theorem advanceSkipLoop_ge (segs : List Segment) (cw : Option Nat) (cs : Option Side) :
    ∀ (fuel i : Nat), i ≤ advanceSkipLoop segs cw cs fuel i := by
  intro fuel
  induction fuel with
  | zero => intro i; exact le_refl i
  | succ f ih =>
    intro i
    unfold advanceSkipLoop
    cases segs[i]? with
    | none => exact le_refl i
    | some s =>
      dsimp only
      split
      · split
        · exact le_trans (by omega) (ih (i+1))
        · exact le_refl i
      · exact le_refl i

theorem advanceSkipLoop_le (segs : List Segment) (cw : Option Nat) (cs : Option Side)
    (hlast : ∀ s, segs[segs.length - 1]? = some s → s.isConditional = false) :
    ∀ (fuel i : Nat), i ≤ segs.length - 1 →
      advanceSkipLoop segs cw cs fuel i ≤ segs.length - 1 := by
  intro fuel
  induction fuel with
  | zero => intro i hi; exact hi
  | succ f ih =>
    intro i hi
    unfold advanceSkipLoop
    cases hs : segs[i]? with
    | none => exact hi
    | some s =>
      dsimp only
      split
      · rename_i hcond
        split
        · refine ih (i+1) ?_
          rcases eq_or_lt_of_le hi with rfl | hlt
          · have := hlast s hs
            simp only [Bool.and_eq_true] at hcond
            rw [this] at hcond
            exact absurd hcond.1 (by simp)
          · omega
        · exact hi
      · exact hi

theorem advanceSkipLoop_oob (segs : List Segment) (cw : Option Nat) (cs : Option Side)
    {i : Nat} (h : segs[i]? = none) (fuel : Nat) :
    advanceSkipLoop segs cw cs fuel i = i := by
  cases fuel with
  | zero => rfl
  | succ f =>
    unfold advanceSkipLoop
    rw [h]

theorem retreatSkipLoop_le (segs : List Segment) (cw : Option Nat) (cs : Option Side) :
    ∀ i : Nat, retreatSkipLoop segs cw cs i ≤ i := by
  intro i
  induction i with
  | zero => exact le_refl 0
  | succ q ih =>
    unfold retreatSkipLoop
    cases segs[q+1]? with
    | none => exact le_refl _
    | some s =>
      dsimp only
      split
      · exact le_trans ih (by omega)
      · exact le_refl _

theorem inv_startTrial (cfg : TrialConfig) : Inv cfg (startTrial cfg) := by
  have hzero : ∀ s ∈ generateAllTrialSegments cfg, s.actualElapsed = 0 :=
    fun s hs => generate_elapsed_zero hs
  refine ⟨rfl, ?_, ?_, ?_, ?_, ?_, ?_, ?_, ?_⟩
  · show 0 < (generateAllTrialSegments cfg).length
    rw [generateAllTrialSegments_length]
    omega
  · show totalElapsedSum (generateAllTrialSegments cfg)
      - elapsedAt (generateAllTrialSegments cfg) 0 + 0 = ((0:Nat) : Int)
    rw [totalElapsedSum_eq_zero hzero, elapsedAt_eq_zero_of_all hzero]
    simp
  · intro h
    rcases h with h | h <;> exact absurd h (by simp [startTrial])
  · intro ⟨h, _⟩
    exact absurd h (by simp [startTrial])
  · intro h
    exact absurd h (by simp [startTrial])
  · intro h
    exact absurd h (by simp [startTrial])
  · intro i hi
    exact elapsedAt_eq_zero_of_all hzero i
  · intro _
    exact ⟨rfl, rfl⟩

theorem inv_tick {cfg : TrialConfig} {st : AppState} (hInv : Inv cfg st) :
    Inv cfg (handleTimerTick st) := by
  unfold handleTimerTick
  split
  case isFalse => exact hInv
  case isTrue hrun =>
    obtain ⟨hsk, hlt, hcons, hpp, hmx, hrs, hcs, hez, hae⟩ := hInv
    have hnoprompt : st.showRedirectPrompt = false ∧ st.showRecrossPrompt = false := by
      constructor
      · by_contra h
        have := (hpp (Or.inl (by revert h; cases st.showRedirectPrompt <;> simp))).1
        rw [this] at hrun
        exact Bool.noConfusion hrun
      · by_contra h
        have := (hpp (Or.inr (by revert h; cases st.showRecrossPrompt <;> simp))).1
        rw [this] at hrun
        exact Bool.noConfusion hrun
    refine ⟨hsk, hlt, ?_, ?_, hmx, hrs, hcs, hez, ?_⟩
    · show totalElapsedSum st.trialSegments
        - elapsedAt st.trialSegments st.currentSegmentIndex
        + (st.currentSegmentElapsed + 1) = ((st.ticksDelivered + 1 : Nat) : Int)
      push_cast
      omega
    · intro h
      rcases h with h | h
      · rw [hnoprompt.1] at h; exact Bool.noConfusion h
      · rw [hnoprompt.2] at h; exact Bool.noConfusion h
    · intro hend
      exact absurd hrun (by rw [(hae hend).2]; simp)

theorem inv_toggle {cfg : TrialConfig} {st : AppState} (hInv : Inv cfg st) :
    Inv cfg (toggleTimer st) := by
  unfold toggleTimer
  split
  case isTrue => exact hInv
  case isFalse hguard =>
    obtain ⟨hsk, hlt, hcons, hpp, hmx, hrs, hcs, hez, hae⟩ := hInv
    simp only [Bool.or_eq_true, not_or] at hguard
    refine ⟨hsk, hlt, hcons, ?_, ?_, ?_, ?_, hez, ?_⟩
    · intro h
      rcases h with h | h
      · exact absurd h (by simpa using hguard.1.1)
      · exact absurd h (by simpa using hguard.1.2)
    · intro ⟨h, _⟩
      exact absurd h (by simpa using hguard.1.1)
    · intro h
      exact absurd h (by simpa using hguard.1.1)
    · intro h
      exact absurd h (by simpa using hguard.1.2)
    · intro hend
      exfalso
      rw [typeAt_eq_some_iff] at hend
      obtain ⟨s, hs, hstype⟩ := hend
      apply hguard.2
      unfold currentIsEnd
      rw [hs]
      simp [hstype]

/-! ### Shape facts transferred to a run's segment list -/

theorem generate_getElem_last (cfg : TrialConfig) :
    (generateAllTrialSegments cfg)[(generateAllTrialSegments cfg).length - 1]?
      = some (endOfTrialSeg cfg) := by
  rw [generate_eq_front_append]
  rw [List.length_append]
  simp only [List.length_cons, List.length_nil]
  rw [show (generateFront cfg).length + (0 + 1) - 1 = (generateFront cfg).length by omega]
  rw [List.getElem?_append, if_neg (by omega)]
  rw [show (generateFront cfg).length - (generateFront cfg).length = 0 by omega]
  rfl

theorem shape_cross_at {cfg : TrialConfig} {segs : List Segment}
    (hsk : segs.map stripElapsed = (generateAllTrialSegments cfg).map stripElapsed)
    {i : Nat} {cur : Segment} (hcur : segs[i]? = some cur)
    (hcross : cur.type = SegType.cross) :
    i + 3 < segs.length
      ∧ ∀ t, segs[i+3]? = some t →
          t.type ≠ SegType.redirect ∧ t.type ≠ SegType.recross := by
  obtain ⟨b, hb, htype, _⟩ := skeleton_at hsk hcur
  obtain ⟨hlt, hnext⟩ := (generate_localShape cfg i).1 b hb (by rw [← htype]; exact hcross)
  constructor
  · rw [skeleton_length hsk]
    exact hlt
  · intro t ht
    obtain ⟨bt, hbt, htt, _⟩ := skeleton_at hsk ht
    have h2 := hnext bt hbt
    rw [htt]
    exact h2

theorem shape_redirect_at {cfg : TrialConfig} {segs : List Segment}
    (hsk : segs.map stripElapsed = (generateAllTrialSegments cfg).map stripElapsed)
    {i : Nat} {cur : Segment} (hcur : segs[i]? = some cur)
    (hred : cur.type = SegType.redirect) :
    ∃ t, segs[i+1]? = some t ∧ t.type = SegType.recross
      ∧ t.witnessIndex = cur.witnessIndex ∧ t.side ≠ cur.side := by
  obtain ⟨b, hb, htype, hside, hwit, _⟩ := skeleton_at hsk hcur
  obtain ⟨bt, hbt, h1, h2, h3⟩ :=
    (generate_localShape cfg i).2 b hb (by rw [← htype]; exact hred)
  have hlen := skeleton_length hsk
  have hi1 : i + 1 < segs.length := by
    have hlt : i + 1 < (generateAllTrialSegments cfg).length := by
      by_contra hge
      rw [List.getElem?_eq_none (by omega)] at hbt
      exact Option.noConfusion hbt
    omega
  have ht : segs[i+1]? = some segs[i+1] := List.getElem?_eq_getElem hi1
  obtain ⟨bt', hbt', ht1, ht2, ht3, _⟩ := skeleton_at hsk ht
  rw [hbt] at hbt'
  have hbb : bt' = bt := by
    injection hbt' with h
    exact h.symm
  subst hbb
  refine ⟨segs[i+1], ht, ?_, ?_, ?_⟩
  · rw [ht1, h1]
  · rw [ht3, h2, hwit]
  · rw [ht2, hside]
    exact h3

theorem shape_end_iff {cfg : TrialConfig} {segs : List Segment}
    (hsk : segs.map stripElapsed = (generateAllTrialSegments cfg).map stripElapsed)
    (i : Nat) :
    typeAt segs i = some SegType.endMarker ↔ i = segs.length - 1 := by
  rw [skeleton_typeAt hsk i, skeleton_length hsk]
  exact generate_typeAt_end_iff cfg i

theorem shape_last_not_conditional {cfg : TrialConfig} {segs : List Segment}
    (hsk : segs.map stripElapsed = (generateAllTrialSegments cfg).map stripElapsed) :
    ∀ s, segs[segs.length - 1]? = some s → s.isConditional = false := by
  intro s hs
  obtain ⟨b, hb, _, _, _, hcond⟩ := skeleton_at hsk hs
  rw [skeleton_length hsk] at hb
  rw [generate_getElem_last cfg] at hb
  have hbe : b = endOfTrialSeg cfg := by
    injection hb with h
    exact h.symm
  rw [hcond, hbe]
  rfl

/-! ### Decision handler preservation -/

theorem markSkipLoopRedirect_succ (cur : Segment) (fuel t : Nat) (segs : List Segment) :
    markSkipLoopRedirect cur (fuel+1) t segs
      = match segs[t]? with
        | some s =>
            if (s.type == SegType.redirect || s.type == SegType.recross)
                && s.witnessIndex == cur.witnessIndex && s.side == cur.side then
              markSkipLoopRedirect cur fuel (t+1) (segs.set t { s with actualElapsed := 0 })
            else (segs, t)
        | none => (segs, t) := rfl

theorem markSkipLoopRecross_succ (cur : Segment) (fuel t : Nat) (segs : List Segment) :
    markSkipLoopRecross cur (fuel+1) t segs
      = match segs[t]? with
        | some s =>
            if s.type == SegType.recross
                && s.witnessIndex == cur.witnessIndex && s.side == cur.side then
              markSkipLoopRecross cur fuel (t+1) (segs.set t { s with actualElapsed := 0 })
            else (segs, t)
        | none => (segs, t) := rfl

theorem inv_decideRedirect {cfg : TrialConfig} {st : AppState}
    (hInv : Inv cfg st) (b : Bool) :
    Inv cfg (handleRedirectDecisionPrompt st b) := by
  unfold handleRedirectDecisionPrompt
  split
  case isFalse => exact hInv
  case isTrue hflag =>
    have hts := hInv.redirect_shape hflag
    rw [typeAt_eq_some_iff] at hts
    obtain ⟨cur, hcur, hcross⟩ := hts
    have hpp := hInv.prompt_pause (Or.inl hflag)
    have hrec : st.showRecrossPrompt = false := by
      by_contra h
      exact hInv.mutex ⟨hflag, by revert h; cases st.showRecrossPrompt <;> simp⟩
    obtain ⟨hlt3, hnotrr⟩ := shape_cross_at hInv.skeleton hcur hcross
    have hcons := hInv.conservation
    have heidx : elapsedAt st.trialSegments st.currentSegmentIndex
        = st.currentSegmentElapsed := hpp.2
    split
    · -- "Yes": move to the redirect at idx+1
      refine ⟨hInv.skeleton,
        (by show st.currentSegmentIndex + 1 < st.trialSegments.length; omega),
        ?_, ?_, ?_, ?_, ?_, hInv.end_zero, ?_⟩
      · show totalElapsedSum st.trialSegments
          - elapsedAt st.trialSegments (st.currentSegmentIndex + 1)
          + elapsedAt st.trialSegments (st.currentSegmentIndex + 1)
          = (st.ticksDelivered : Int)
        omega
      · intro h
        rcases h with h | h
        · exact Bool.noConfusion h
        · rw [hrec] at h; exact Bool.noConfusion h
      · intro ⟨h, _⟩
        exact Bool.noConfusion h
      · intro h
        exact Bool.noConfusion h
      · intro h
        rw [hrec] at h
        exact Bool.noConfusion h
      · intro hend
        exact ⟨hInv.end_zero _ hend, rfl⟩
    · -- "No": the marking loop exits immediately at idx+3
      dsimp only
      rw [hcur]
      dsimp only
      have hlen1 : ∃ m, st.trialSegments.length = m + 1 :=
        ⟨st.trialSegments.length - 1, by have := hInv.idxLt; omega⟩
      obtain ⟨m, hm⟩ := hlen1
      have hs3 : st.trialSegments[st.currentSegmentIndex + 3]?
          = some st.trialSegments[st.currentSegmentIndex + 3] :=
        List.getElem?_eq_getElem hlt3
      obtain ⟨hnr, hnc⟩ := hnotrr _ hs3
      have hcf : ((st.trialSegments[st.currentSegmentIndex + 3].type == SegType.redirect
              || st.trialSegments[st.currentSegmentIndex + 3].type == SegType.recross)
            && st.trialSegments[st.currentSegmentIndex + 3].witnessIndex == cur.witnessIndex
            && st.trialSegments[st.currentSegmentIndex + 3].side == cur.side) = false := by
        have e1 : (st.trialSegments[st.currentSegmentIndex + 3].type
            == SegType.redirect) = false := by simp [hnr]
        have e2 : (st.trialSegments[st.currentSegmentIndex + 3].type
            == SegType.recross) = false := by simp [hnc]
        rw [e1, e2]
        rfl
      have hmark : markSkipLoopRedirect cur st.trialSegments.length
          (st.currentSegmentIndex + 3) st.trialSegments
          = (st.trialSegments, st.currentSegmentIndex + 3) := by
        rw [hm, markSkipLoopRedirect_succ, hs3]
        dsimp only
        rw [hcf]
        simp
      rw [hmark]
      refine ⟨hInv.skeleton,
        (by show st.currentSegmentIndex + 3 < st.trialSegments.length; omega),
        ?_, ?_, ?_, ?_, ?_, hInv.end_zero, ?_⟩
      · show totalElapsedSum st.trialSegments
          - elapsedAt st.trialSegments (st.currentSegmentIndex + 3)
          + elapsedAt st.trialSegments (st.currentSegmentIndex + 3)
          = (st.ticksDelivered : Int)
        omega
      · intro h
        rcases h with h | h
        · exact Bool.noConfusion h
        · rw [hrec] at h; exact Bool.noConfusion h
      · intro ⟨h, _⟩
        exact Bool.noConfusion h
      · intro h
        exact Bool.noConfusion h
      · intro h
        rw [hrec] at h
        exact Bool.noConfusion h
      · intro hend
        exact ⟨hInv.end_zero _ hend, rfl⟩

theorem inv_decideRecross {cfg : TrialConfig} {st : AppState}
    (hInv : Inv cfg st) (b : Bool) :
    Inv cfg (handleRecrossDecisionPrompt st b) := by
  unfold handleRecrossDecisionPrompt
  split
  case isFalse => exact hInv
  case isTrue hflag =>
    have hts := hInv.recross_shape hflag
    rw [typeAt_eq_some_iff] at hts
    obtain ⟨cur, hcur, hred⟩ := hts
    have hpp := hInv.prompt_pause (Or.inr hflag)
    have hredf : st.showRedirectPrompt = false := by
      by_contra h
      exact hInv.mutex ⟨by revert h; cases st.showRedirectPrompt <;> simp, hflag⟩
    obtain ⟨t, ht, htype, hwit, hside⟩ := shape_redirect_at hInv.skeleton hcur hred
    have hi1 : st.currentSegmentIndex + 1 < st.trialSegments.length := by
      by_contra hge
      rw [List.getElem?_eq_none (by omega)] at ht
      exact Option.noConfusion ht
    have hcons := hInv.conservation
    have heidx : elapsedAt st.trialSegments st.currentSegmentIndex
        = st.currentSegmentElapsed := hpp.2
    split
    · -- "Yes": move to the recross at idx+1
      refine ⟨hInv.skeleton, hi1, ?_, ?_, ?_, ?_, ?_, hInv.end_zero, ?_⟩
      · show totalElapsedSum st.trialSegments
          - elapsedAt st.trialSegments (st.currentSegmentIndex + 1)
          + elapsedAt st.trialSegments (st.currentSegmentIndex + 1)
          = (st.ticksDelivered : Int)
        omega
      · intro h
        rcases h with h | h
        · rw [hredf] at h; exact Bool.noConfusion h
        · exact Bool.noConfusion h
      · intro ⟨_, h⟩
        exact Bool.noConfusion h
      · intro h
        rw [hredf] at h
        exact Bool.noConfusion h
      · intro h
        exact Bool.noConfusion h
      · intro hend
        exact ⟨hInv.end_zero _ hend, rfl⟩
    · -- "No": the marking loop exits immediately at idx+1 (side mismatch)
      dsimp only
      rw [hcur]
      dsimp only
      obtain ⟨m, hm⟩ : ∃ m, st.trialSegments.length = m + 1 :=
        ⟨st.trialSegments.length - 1, by have := hInv.idxLt; omega⟩
      have hcf : (t.type == SegType.recross
            && t.witnessIndex == cur.witnessIndex
            && t.side == cur.side) = false := by
        have e3 : (t.side == cur.side) = false := by simp [hside]
        rw [e3]
        simp
      have hmark : markSkipLoopRecross cur st.trialSegments.length
          (st.currentSegmentIndex + 1) st.trialSegments
          = (st.trialSegments, st.currentSegmentIndex + 1) := by
        rw [hm, markSkipLoopRecross_succ, ht]
        dsimp only
        rw [hcf]
        simp
      rw [hmark]
      refine ⟨hInv.skeleton, hi1, ?_, ?_, ?_, ?_, ?_, hInv.end_zero, ?_⟩
      · show totalElapsedSum st.trialSegments
          - elapsedAt st.trialSegments (st.currentSegmentIndex + 1)
          + elapsedAt st.trialSegments (st.currentSegmentIndex + 1)
          = (st.ticksDelivered : Int)
        omega
      · intro h
        rcases h with h | h
        · rw [hredf] at h; exact Bool.noConfusion h
        · exact Bool.noConfusion h
      · intro ⟨_, h⟩
        exact Bool.noConfusion h
      · intro h
        rw [hredf] at h
        exact Bool.noConfusion h
      · intro h
        exact Bool.noConfusion h
      · intro hend
        exact ⟨hInv.end_zero _ hend, rfl⟩

/-! ### Advance / retreat preservation -/

theorem inv_advance {cfg : TrialConfig} {st : AppState} (hInv : Inv cfg st)
    (hp1 : st.showRedirectPrompt = false) (hp2 : st.showRecrossPrompt = false) :
    Inv cfg (moveToNextSegment st) := by
  have hbound : st.currentSegmentIndex < st.trialSegments.length := hInv.idxLt
  have hcur : st.trialSegments[st.currentSegmentIndex]?
      = some st.trialSegments[st.currentSegmentIndex] :=
    List.getElem?_eq_getElem hbound
  set cur := st.trialSegments[st.currentSegmentIndex] with hcurdef
  unfold moveToNextSegment
  dsimp only
  by_cases hredc : redirectPromptCond st.trialSegments st.currentSegmentIndex = true
  · -- redirect prompt raised instead of moving
    rw [if_pos hredc]
    have hcross : cur.type = SegType.cross := by
      unfold redirectPromptCond at hredc
      rw [hcur] at hredc
      cases hnx : st.trialSegments[st.currentSegmentIndex + 1]? with
      | none => rw [hnx] at hredc; exact Bool.noConfusion hredc
      | some nxt =>
        rw [hnx] at hredc
        simp only [Bool.and_eq_true, beq_iff_eq] at hredc
        exact hredc.1.1
    have hne : cur.type ≠ SegType.endMarker := by rw [hcross]; exact fun h => SegType.noConfusion h
    have htot := commit_totalSum hcur (fun he => by rw [hcross] at he; cases he)
    have hself := commit_elapsedAt_self hcur hne
    refine ⟨(commit_skeleton st).trans hInv.skeleton, ?_, ?_, ?_, ?_, ?_, ?_, ?_, ?_⟩
    · show st.currentSegmentIndex < (saveCurrentSegmentTime st).length
      rw [commit_length]
      exact hInv.idxLt
    · show totalElapsedSum (saveCurrentSegmentTime st)
        - elapsedAt (saveCurrentSegmentTime st) st.currentSegmentIndex
        + st.currentSegmentElapsed = (st.ticksDelivered : Int)
      rw [htot, hself]
      have := hInv.conservation
      omega
    · intro _
      exact ⟨rfl, hself⟩
    · intro ⟨_, h⟩
      rw [hp2] at h
      exact Bool.noConfusion h
    · intro _
      rw [commit_typeAt]
      unfold typeAt
      rw [hcur]
      simp [hcross]
    · intro h
      rw [hp2] at h
      exact Bool.noConfusion h
    · intro i hi
      rw [commit_typeAt] at hi
      have hne_i : i ≠ st.currentSegmentIndex := by
        intro heq
        subst heq
        rw [typeAt_eq_some_iff] at hi
        obtain ⟨s, hs, hst⟩ := hi
        rw [hcur] at hs
        have : s = cur := by injection hs with h; exact h.symm
        subst this
        rw [hcross] at hst
        cases hst
      rw [commit_elapsedAt_ne st hne_i]
      exact hInv.end_zero i hi
    · intro hend
      rw [commit_typeAt] at hend
      rw [typeAt_eq_some_iff] at hend
      obtain ⟨s, hs, hst⟩ := hend
      rw [hcur] at hs
      have : s = cur := by injection hs with h; exact h.symm
      subst this
      rw [hcross] at hst
      cases hst
  · rw [if_neg hredc]
    by_cases hrecc : recrossPromptCond st.trialSegments st.currentSegmentIndex = true
    · -- recross prompt raised instead of moving
      rw [if_pos hrecc]
      have hredt : cur.type = SegType.redirect := by
        unfold recrossPromptCond at hrecc
        rw [hcur] at hrecc
        cases hnx : st.trialSegments[st.currentSegmentIndex + 1]? with
        | none => rw [hnx] at hrecc; exact Bool.noConfusion hrecc
        | some nxt =>
          rw [hnx] at hrecc
          simp only [Bool.and_eq_true, beq_iff_eq] at hrecc
          exact hrecc.1.1
      have hne : cur.type ≠ SegType.endMarker := by
        rw [hredt]; exact fun h => SegType.noConfusion h
      have htot := commit_totalSum hcur (fun he => by rw [hredt] at he; cases he)
      have hself := commit_elapsedAt_self hcur hne
      refine ⟨(commit_skeleton st).trans hInv.skeleton, ?_, ?_, ?_, ?_, ?_, ?_, ?_, ?_⟩
      · show st.currentSegmentIndex < (saveCurrentSegmentTime st).length
        rw [commit_length]
        exact hInv.idxLt
      · show totalElapsedSum (saveCurrentSegmentTime st)
          - elapsedAt (saveCurrentSegmentTime st) st.currentSegmentIndex
          + st.currentSegmentElapsed = (st.ticksDelivered : Int)
        rw [htot, hself]
        have := hInv.conservation
        omega
      · intro _
        exact ⟨rfl, hself⟩
      · intro ⟨h, _⟩
        rw [hp1] at h
        exact Bool.noConfusion h
      · intro h
        rw [hp1] at h
        exact Bool.noConfusion h
      · intro _
        rw [commit_typeAt]
        unfold typeAt
        rw [hcur]
        simp [hredt]
      · intro i hi
        rw [commit_typeAt] at hi
        have hne_i : i ≠ st.currentSegmentIndex := by
          intro heq
          subst heq
          rw [typeAt_eq_some_iff] at hi
          obtain ⟨s, hs, hst⟩ := hi
          rw [hcur] at hs
          have : s = cur := by injection hs with h; exact h.symm
          subst this
          rw [hredt] at hst
          cases hst
        rw [commit_elapsedAt_ne st hne_i]
        exact hInv.end_zero i hi
      · intro hend
        rw [commit_typeAt] at hend
        rw [typeAt_eq_some_iff] at hend
        obtain ⟨s, hs, hst⟩ := hend
        rw [hcur] at hs
        have : s = cur := by injection hs with h; exact h.symm
        subst this
        rw [hredt] at hst
        cases hst
    · -- ordinary move
      rw [if_neg hrecc]
      by_cases hendc : cur.type = SegType.endMarker
      · -- at the end marker: clamp in place
        have htend : typeAt st.trialSegments st.currentSegmentIndex
            = some SegType.endMarker := by
          unfold typeAt
          rw [hcur]
          simp [hendc]
        have hlast : st.currentSegmentIndex = st.trialSegments.length - 1 :=
          (shape_end_iff hInv.skeleton _).mp htend
        obtain ⟨hlive0, _⟩ := hInv.at_end htend
        have hcommit : saveCurrentSegmentTime st = st.trialSegments :=
          commit_of_end hcur hendc
        have hoob : st.trialSegments[st.currentSegmentIndex + 1]? = none := by
          rw [List.getElem?_eq_none]
          have := hInv.idxLt
          omega
        rw [advanceSkipLoop_oob _ _ _ hoob]
        rw [if_neg (by have := hInv.idxLt; omega)]
        rw [hcommit]
        refine ⟨hInv.skeleton, ?_, ?_, ?_, ?_, ?_, ?_, hInv.end_zero, ?_⟩
        · show st.trialSegments.length - 1 < st.trialSegments.length
          have := hInv.idxLt
          omega
        · show totalElapsedSum st.trialSegments
            - elapsedAt st.trialSegments (st.trialSegments.length - 1) + 0
            = (st.ticksDelivered : Int)
          have := hInv.conservation
          rw [← hlast]
          omega
        · intro h
          rcases h with h | h
          · rw [hp1] at h; exact Bool.noConfusion h
          · rw [hp2] at h; exact Bool.noConfusion h
        · intro ⟨h, _⟩
          rw [hp1] at h
          exact Bool.noConfusion h
        · intro h
          rw [hp1] at h
          exact Bool.noConfusion h
        · intro h
          rw [hp2] at h
          exact Bool.noConfusion h
        · intro _
          exact ⟨rfl, rfl⟩
      · -- interior move: land inside the list
        have hne := hendc
        have hlt1 : st.currentSegmentIndex < st.trialSegments.length - 1 := by
          rcases Nat.lt_or_ge st.currentSegmentIndex (st.trialSegments.length - 1) with h | h
          · exact h
          · exfalso
            have heq : st.currentSegmentIndex = st.trialSegments.length - 1 := by
              have := hInv.idxLt
              omega
            have := (shape_end_iff hInv.skeleton st.currentSegmentIndex).mpr heq
            rw [typeAt_eq_some_iff] at this
            obtain ⟨s, hs, hst⟩ := this
            rw [hcur] at hs
            have hsc : s = cur := by injection hs with h'; exact h'.symm
            subst hsc
            exact hne hst
        set cw := (st.trialSegments[st.currentSegmentIndex]?).bind Segment.witnessIndex
        set cs := (st.trialSegments[st.currentSegmentIndex]?).bind Segment.side
        set nextIndex := advanceSkipLoop st.trialSegments cw cs
          st.trialSegments.length (st.currentSegmentIndex + 1) with hni
        have hge : st.currentSegmentIndex + 1 ≤ nextIndex := advanceSkipLoop_ge _ _ _ _ _
        have hle : nextIndex ≤ st.trialSegments.length - 1 :=
          advanceSkipLoop_le _ _ _ (shape_last_not_conditional hInv.skeleton) _ _ (by omega)
        have hlt : nextIndex < st.trialSegments.length := by
          have := hInv.idxLt
          omega
        rw [if_pos hlt]
        have htot := commit_totalSum hcur (fun he => absurd he hne)
        have hnidx : nextIndex ≠ st.currentSegmentIndex := by omega
        refine ⟨(commit_skeleton st).trans hInv.skeleton, ?_, ?_, ?_, ?_, ?_, ?_, ?_, ?_⟩
        · show nextIndex < (saveCurrentSegmentTime st).length
          rw [commit_length]
          exact hlt
        · show totalElapsedSum (saveCurrentSegmentTime st)
            - elapsedAt (saveCurrentSegmentTime st) nextIndex
            + elapsedAt st.trialSegments nextIndex = (st.ticksDelivered : Int)
          rw [htot, commit_elapsedAt_ne st hnidx]
          have hc := hInv.conservation
          have he' : elapsedAt st.trialSegments st.currentSegmentIndex
              = cur.actualElapsed := by
            unfold elapsedAt
            rw [hcur]
          omega
        · intro h
          rcases h with h | h
          · rw [hp1] at h; exact Bool.noConfusion h
          · rw [hp2] at h; exact Bool.noConfusion h
        · intro ⟨h, _⟩
          rw [hp1] at h
          exact Bool.noConfusion h
        · intro h
          rw [hp1] at h
          exact Bool.noConfusion h
        · intro h
          rw [hp2] at h
          exact Bool.noConfusion h
        · intro i hi
          rw [commit_typeAt] at hi
          have hne_i : i ≠ st.currentSegmentIndex := by
            intro heq
            subst heq
            rw [typeAt_eq_some_iff] at hi
            obtain ⟨s, hs, hst⟩ := hi
            rw [hcur] at hs
            have : s = cur := by injection hs with h'; exact h'.symm
            subst this
            exact hne hst
          rw [commit_elapsedAt_ne st hne_i]
          exact hInv.end_zero i hi
        · intro hend
          rw [commit_typeAt] at hend
          exact ⟨hInv.end_zero _ hend, rfl⟩

theorem inv_retreat {cfg : TrialConfig} {st : AppState} (hInv : Inv cfg st)
    (hp1 : st.showRedirectPrompt = false) (hp2 : st.showRecrossPrompt = false)
    (hidx : st.currentSegmentIndex ≠ 0) :
    Inv cfg (moveToPreviousSegment st) := by
  have hbound : st.currentSegmentIndex < st.trialSegments.length := hInv.idxLt
  have hcur : st.trialSegments[st.currentSegmentIndex]?
      = some st.trialSegments[st.currentSegmentIndex] :=
    List.getElem?_eq_getElem hbound
  set cur := st.trialSegments[st.currentSegmentIndex] with hcurdef
  unfold moveToPreviousSegment
  dsimp only
  rw [if_pos (Nat.pos_of_ne_zero hidx)]
  set cw := (st.trialSegments[st.currentSegmentIndex]?).bind Segment.witnessIndex
  set cs := (st.trialSegments[st.currentSegmentIndex]?).bind Segment.side
  set j := retreatSkipLoop st.trialSegments cw cs (st.currentSegmentIndex - 1) with hjdef
  have hjle : j ≤ st.currentSegmentIndex - 1 := retreatSkipLoop_le _ _ _ _
  have hjlt : j < st.currentSegmentIndex := by omega
  have hjne : j ≠ st.currentSegmentIndex := by omega
  have htot := commit_totalSum hcur ?hend
  case hend =>
    intro he
    have htend : typeAt st.trialSegments st.currentSegmentIndex
        = some SegType.endMarker := by
      unfold typeAt
      rw [hcur]
      simp [he]
    rw [(hInv.at_end htend).1, hInv.end_zero _ htend]
  refine ⟨(commit_skeleton st).trans hInv.skeleton, ?_, ?_, ?_, ?_, ?_, ?_, ?_, ?_⟩
  · show j < (saveCurrentSegmentTime st).length
    rw [commit_length]
    have := hInv.idxLt
    omega
  · show totalElapsedSum (saveCurrentSegmentTime st)
      - elapsedAt (saveCurrentSegmentTime st) j
      + elapsedAt st.trialSegments j = (st.ticksDelivered : Int)
    rw [htot, commit_elapsedAt_ne st hjne]
    have hc := hInv.conservation
    omega
  · intro h
    rcases h with h | h
    · rw [hp1] at h; exact Bool.noConfusion h
    · rw [hp2] at h; exact Bool.noConfusion h
  · intro ⟨h, _⟩
    rw [hp1] at h
    exact Bool.noConfusion h
  · intro h
    rw [hp1] at h
    exact Bool.noConfusion h
  · intro h
    rw [hp2] at h
    exact Bool.noConfusion h
  · intro i hi
    rw [commit_typeAt] at hi
    by_cases hne_i : i = st.currentSegmentIndex
    · subst hne_i
      rw [typeAt_eq_some_iff] at hi
      obtain ⟨s, hs, hst⟩ := hi
      rw [hcur] at hs
      have hsc : s = cur := by injection hs with h'; exact h'.symm
      subst hsc
      have htend : typeAt st.trialSegments st.currentSegmentIndex
          = some SegType.endMarker := by
        unfold typeAt
        rw [hcur]
        simp [hst]
      rw [commit_of_end hcur hst]
      exact hInv.end_zero _ htend
    · rw [commit_elapsedAt_ne st hne_i]
      exact hInv.end_zero i hi
  · intro hend
    rw [commit_typeAt] at hend
    exact ⟨hInv.end_zero _ hend, rfl⟩

/-! ### The trace induction and C8 -/

theorem inv_step {cfg : TrialConfig} {st : AppState} (hInv : Inv cfg st) (op : Op)
    (hop : (match op with | Op.goTo _ => false | _ => true) = true)
    (hre : op = Op.retreat → st.currentSegmentIndex ≠ 0) :
    Inv cfg (step st op) := by
  cases op with
  | tick => exact inv_tick hInv
  | toggle => exact inv_toggle hInv
  | advance =>
    show Inv cfg (if (st.showRedirectPrompt || st.showRecrossPrompt) = true
      then st else moveToNextSegment st)
    by_cases hp : (st.showRedirectPrompt || st.showRecrossPrompt) = true
    · rw [if_pos hp]
      exact hInv
    · rw [if_neg hp]
      simp only [Bool.or_eq_true, not_or, Bool.not_eq_true] at hp
      exact inv_advance hInv hp.1 hp.2
  | retreat =>
    show Inv cfg (if (st.showRedirectPrompt || st.showRecrossPrompt) = true
      then st else moveToPreviousSegment st)
    by_cases hp : (st.showRedirectPrompt || st.showRecrossPrompt) = true
    · rw [if_pos hp]
      exact hInv
    · rw [if_neg hp]
      simp only [Bool.or_eq_true, not_or, Bool.not_eq_true] at hp
      exact inv_retreat hInv hp.1 hp.2 (hre rfl)
  | decideRedirect b => exact inv_decideRedirect hInv b
  | decideRecross b => exact inv_decideRecross hInv b
  | goTo segmentId => exact Bool.noConfusion hop

theorem inv_runTrace {cfg : TrialConfig} :
    ∀ (ops : List Op) (st : AppState), Inv cfg st →
      noJumpOps ops = true → noRetreatAtZero st ops = true →
      Inv cfg (runTrace st ops) := by
  intro ops
  induction ops with
  | nil => intro st h _ _; exact h
  | cons op rest ih =>
    intro st h hnj hnr
    unfold noJumpOps at hnj
    rw [Bool.and_eq_true] at hnj
    unfold noRetreatAtZero at hnr
    rw [Bool.and_eq_true] at hnr
    show Inv cfg (runTrace (step st op) rest)
    refine ih (step st op) ?_ hnj.2 hnr.2
    refine inv_step h op hnj.1 ?_
    intro hop
    subst hop
    have h1 := hnr.1
    rw [Bool.or_eq_true] at h1
    rcases h1 with h1 | h1
    · simp at h1
    · simpa using h1

/-- C8 (amended): for every event trace of ticks, run toggles, advances,
retreats and prompt decisions — no edits, no jump-to — from a freshly
generated timeline, in which retreat is never applied at index 0, the
committed `actualElapsed` of all segments other than the active one, plus
the live elapsed counter of the active segment, equals exactly the number
of ticks delivered while running.  (Retreat at index 0 commits and zeroes
the live counter; the next commit then overwrites the stored value, losing
those ticks — see the counterexample.) -/
theorem c8_tick_conservation (cfg : TrialConfig) (ops : List Op)
    (hnj : noJumpOps ops = true)
    (hnr : noRetreatAtZero (startTrial cfg) ops = true) :
    committedElapsedOffActive (runTrace (startTrial cfg) ops)
        + (runTrace (startTrial cfg) ops).currentSegmentElapsed
      = ((runTrace (startTrial cfg) ops).ticksDelivered : Int) := by
  unfold committedElapsedOffActive
  exact (inv_runTrace ops (startTrial cfg) (inv_startTrial cfg) hnj hnr).conservation

/-- Witness for C8 (amended): a concrete trace with a prompt decision and a
retreat away from index 0 conserves its 3 delivered ticks. -/
theorem c8_tick_conservation_witness :
    noJumpOps [Op.toggle, Op.tick, Op.tick, Op.advance, Op.toggle, Op.tick, Op.retreat] = true
      ∧ noRetreatAtZero (startTrial cfgDemo)
          [Op.toggle, Op.tick, Op.tick, Op.advance, Op.toggle, Op.tick, Op.retreat] = true
      ∧ committedElapsedOffActive (runTrace (startTrial cfgDemo)
            [Op.toggle, Op.tick, Op.tick, Op.advance, Op.toggle, Op.tick, Op.retreat])
          + (runTrace (startTrial cfgDemo)
            [Op.toggle, Op.tick, Op.tick, Op.advance, Op.toggle, Op.tick, Op.retreat]).currentSegmentElapsed
        = ((runTrace (startTrial cfgDemo)
            [Op.toggle, Op.tick, Op.tick, Op.advance, Op.toggle, Op.tick, Op.retreat]).ticksDelivered : Int)
      ∧ (runTrace (startTrial cfgDemo)
            [Op.toggle, Op.tick, Op.tick, Op.advance, Op.toggle, Op.tick, Op.retreat]).ticksDelivered = 3 :=
  ⟨by decide, by decide,
    c8_tick_conservation cfgDemo _ (by decide) (by decide), by decide⟩

end MockTrialApp

